import Mathlib

/-!
# Verification of PowerGenome's scenario-settings overlay engine and fuel-cost pipeline

Shallow embedding of `powergenome/run_powergenome_multiple_outputs_cli.py`
(`build_scenario_settings`) and `powergenome/fuels.py` (`fuel_cost_table`,
`adjust_ccs_fuels`, `add_carbon_tax`).

Python dictionaries are embedded as association lists (`List (κ × α)`) where
assignment `d[k] = v` replaces the first binding of `k` (or appends a new one)
and lookup `d[k]` returns the first binding; this matches dict semantics for
the unique-key lists dictionaries actually are.  Numeric columns are embedded
as `ℚ`; a missing value (pandas `NaN`) is `Option.none` and propagates through
arithmetic the way `NaN` does.  Code that can raise (`KeyError`, failed
`assert`, `squeeze().at` on a non-single selection) returns `Except String`.
-/

set_option autoImplicit false

namespace PG

universe u v

/-! ## Association lists with Python-dict semantics -/

/-- First binding of `k`, like Python `d[k]` (when present). -/
def lookupKey {κ : Type u} {α : Type v} [DecidableEq κ] (k : κ) : List (κ × α) → Option α
  | [] => none
  | (k', v) :: rest => if k' = k then some v else lookupKey k rest

/-- Python `d[k] = v`: replace the first binding of `k`, or append. -/
def setKey {κ : Type u} {α : Type v} [DecidableEq κ] (l : List (κ × α)) (k : κ) (v : α) :
    List (κ × α) :=
  match l with
  | [] => [(k, v)]
  | (k', v') :: rest => if k' = k then (k, v) :: rest else (k', v') :: setKey rest k v

/-- Building a dict from a list of key/value pairs (later pairs overwrite). -/
def buildDict {κ : Type u} {α : Type v} [DecidableEq κ] (l : List (κ × α)) : List (κ × α) :=
  l.foldl (fun m p => setKey m p.1 p.2) []

@[simp] theorem lookupKey_nil {κ : Type u} {α : Type v} [DecidableEq κ] (k : κ) :
    lookupKey (α := α) k [] = none := rfl

@[simp] theorem lookupKey_cons {κ : Type u} {α : Type v} [DecidableEq κ] (k k' : κ) (v : α)
    (rest : List (κ × α)) :
    lookupKey k ((k', v) :: rest) = if k' = k then some v else lookupKey k rest := rfl

theorem lookupKey_setKey_self {κ : Type u} {α : Type v} [DecidableEq κ]
    (l : List (κ × α)) (k : κ) (v : α) : lookupKey k (setKey l k v) = some v := by
  induction l with
  | nil => simp [setKey]
  | cons hd tl ih =>
    obtain ⟨k', v'⟩ := hd
    by_cases h : k' = k
    · simp [setKey, h]
    · simp [setKey, h, ih]

theorem lookupKey_setKey_ne {κ : Type u} {α : Type v} [DecidableEq κ]
    (l : List (κ × α)) (k k' : κ) (v : α) (h : k' ≠ k) :
    lookupKey k (setKey l k' v) = lookupKey k l := by
  induction l with
  | nil => simp [setKey, h]
  | cons hd tl ih =>
    obtain ⟨k₀, v₀⟩ := hd
    by_cases h₀ : k₀ = k'
    · subst h₀
      simp [setKey, h]
    · by_cases h₁ : k₀ = k <;> simp [setKey, h₀, h₁, ih, Ne.symm h]

/-- Keys bound in `setKey l k v` are the old keys plus `k`. -/
theorem lookupKey_setKey_isSome {κ : Type u} {α : Type v} [DecidableEq κ]
    (l : List (κ × α)) (k k' : κ) (v : α) :
    (lookupKey k (setKey l k' v)).isSome ↔ k' = k ∨ (lookupKey k l).isSome := by
  by_cases h : k' = k
  · subst h
    simp [lookupKey_setKey_self]
  · simp [lookupKey_setKey_ne l k k' v h, h]

/-- A key is resolvable in a built dict iff it appears among the pairs. -/
theorem lookupKey_buildDict_isSome {κ : Type u} {α : Type v} [DecidableEq κ]
    (l : List (κ × α)) (k : κ) :
    (lookupKey k (buildDict l)).isSome ↔ k ∈ l.map Prod.fst := by
  suffices h : ∀ (init : List (κ × α)),
      (lookupKey k (l.foldl (fun m p => setKey m p.1 p.2) init)).isSome ↔
        k ∈ l.map Prod.fst ∨ (lookupKey k init).isSome by
    simpa [buildDict] using h []
  induction l with
  | nil => simp
  | cons hd tl ih =>
    intro init
    simp only [List.foldl_cons, List.map_cons, List.mem_cons]
    rw [ih, lookupKey_setKey_isSome, @eq_comm _ hd.1 k]
    tauto

/-! ## First-seen deduplication (pandas `drop_duplicates` / `unique`) -/

/-- Keep the first occurrence of each element, in order; `seen` are already emitted. -/
def dedupAux {α : Type u} [DecidableEq α] (seen : List α) : List α → List α
  | [] => []
  | x :: xs => if x ∈ seen then dedupAux seen xs else x :: dedupAux (x :: seen) xs

/-- pandas `Series.drop_duplicates()` / `.unique()`: first-seen order kept. -/
def dedupFirst {α : Type u} [DecidableEq α] (l : List α) : List α := dedupAux [] l

theorem mem_dedupAux {α : Type u} [DecidableEq α] (seen : List α) (l : List α) (x : α) :
    x ∈ dedupAux seen l ↔ x ∈ l ∧ x ∉ seen := by
  induction l generalizing seen with
  | nil => simp [dedupAux]
  | cons hd tl ih =>
    by_cases h : hd ∈ seen
    · rw [dedupAux, if_pos h, ih]
      simp only [List.mem_cons]
      constructor
      · rintro ⟨hx, hn⟩
        exact ⟨Or.inr hx, hn⟩
      · rintro ⟨hx | hx, hn⟩
        · exact absurd (hx ▸ h) hn
        · exact ⟨hx, hn⟩
    · rw [dedupAux, if_neg h]
      by_cases hxh : x = hd
      · subst hxh
        simp [List.mem_cons, h]
      · simp [List.mem_cons, ih, hxh]

theorem mem_dedupFirst {α : Type u} [DecidableEq α] (l : List α) (x : α) :
    x ∈ dedupFirst l ↔ x ∈ l := by
  simp [dedupFirst, mem_dedupAux]

theorem nodup_dedupAux {α : Type u} [DecidableEq α] (seen : List α) (l : List α) :
    (dedupAux seen l).Nodup := by
  induction l generalizing seen with
  | nil => exact List.nodup_nil
  | cons hd tl ih =>
    by_cases h : hd ∈ seen
    · simpa [dedupAux, h] using ih seen
    · simp only [dedupAux, if_neg h]
      refine List.nodup_cons.mpr ⟨?_, ih (hd :: seen)⟩
      intro hc
      exact ((mem_dedupAux (hd :: seen) tl hd).mp hc).2 (List.mem_cons_self _ _)

theorem nodup_dedupFirst {α : Type u} [DecidableEq α] (l : List α) :
    (dedupFirst l).Nodup := nodup_dedupAux [] l

/-! ## `Except` plumbing for code that can raise -/

/-- Python `d[k]`-style lookup that raises `KeyError` on a missing key. -/
def getOrErr {α : Type u} (o : Option α) (msg : String) : Except String α :=
  match o with
  | some a => Except.ok a
  | none => Except.error msg

@[simp] theorem getOrErr_some {α : Type u} (a : α) (msg : String) :
    getOrErr (some a) msg = Except.ok a := rfl

@[simp] theorem getOrErr_none {α : Type u} (msg : String) :
    getOrErr (none : Option α) msg = Except.error msg := rfl

/-- Sequential map in `Except`; the first raised error aborts, like a Python loop. -/
def exMapM {α : Type u} {β : Type v} (f : α → Except String β) : List α → Except String (List β)
  | [] => Except.ok []
  | x :: xs =>
    match f x with
    | Except.error e => Except.error e
    | Except.ok y =>
      match exMapM f xs with
      | Except.error e => Except.error e
      | Except.ok ys => Except.ok (y :: ys)

/-- Sequential fold in `Except`; the first raised error aborts, like a Python loop. -/
def exFoldM {σ : Type u} {α : Type v} (f : σ → α → Except String σ) (init : σ) :
    List α → Except String σ
  | [] => Except.ok init
  | x :: xs =>
    match f init x with
    | Except.error e => Except.error e
    | Except.ok s => exFoldM f s xs

theorem exMapM_ok_forall₂ {α : Type u} {β : Type v} (f : α → Except String β)
    (P : α → β → Prop) (l : List α) (h : ∀ x ∈ l, ∃ y, f x = Except.ok y ∧ P x y) :
    ∃ ys, exMapM f l = Except.ok ys ∧ List.Forall₂ P l ys := by
  induction l with
  | nil => exact ⟨[], rfl, List.Forall₂.nil⟩
  | cons hd tl ih =>
    obtain ⟨y, hy, hPy⟩ := h hd (List.mem_cons_self _ _)
    obtain ⟨ys, hys, hPys⟩ := ih (fun x hx => h x (List.mem_cons_of_mem _ hx))
    exact ⟨y :: ys, by simp [exMapM, hy, hys], List.Forall₂.cons hPy hPys⟩

theorem exMapM_forall₂_of_ok {α : Type u} {β : Type v} (f : α → Except String β)
    (l : List α) :
    ∀ ys, exMapM f l = Except.ok ys → List.Forall₂ (fun x y => f x = Except.ok y) l ys := by
  induction l with
  | nil =>
    intro ys h
    rw [exMapM] at h
    injection h with h
    rw [← h]
    exact List.Forall₂.nil
  | cons hd tl ih =>
    intro ys h
    rw [exMapM] at h
    cases hhd : f hd with
    | error e => rw [hhd] at h; cases h
    | ok y =>
      rw [hhd] at h
      cases htl : exMapM f tl with
      | error e => rw [htl] at h; cases h
      | ok ys' =>
        rw [htl] at h
        injection h with h
        rw [← h]
        exact List.Forall₂.cons hhd (ih ys' htl)

theorem exMapM_error_of_mem {α : Type u} {β : Type v} (f : α → Except String β)
    (l : List α) (h : ∃ x ∈ l, ∃ e, f x = Except.error e) :
    ∃ e, exMapM f l = Except.error e := by
  induction l with
  | nil => simp at h
  | cons hd tl ih =>
    match hhd : f hd with
    | Except.error e => exact ⟨e, by simp [exMapM, hhd]⟩
    | Except.ok y =>
      obtain ⟨x, hx, e, he⟩ := h
      rcases List.mem_cons.mp hx with rfl | hx
      · rw [hhd] at he
        cases he
      · obtain ⟨e', he'⟩ := ih ⟨x, hx, e, he⟩
        exact ⟨e', by simp [exMapM, hhd, he']⟩

/-! ## Configuration values

A settings value is a scalar (string or number) or a nested mapping; this is
the tree shape over which `powergenome.util.update_dictionary` recurses. -/

/-- A value in a settings dictionary: a scalar or a nested mapping. -/
inductive CVal where
  | str : String → CVal
  | nat : Nat → CVal
  | node : List (String × CVal) → CVal

instance : Inhabited CVal := ⟨CVal.node []⟩

/-- A (partial) settings dictionary, e.g. a `new_parameter` patch. -/
abbrev Bag := List (String × CVal)

mutual

/-- Modelled from the spec: `powergenome.util.update_dictionary` (not under `src/`):
"For each key in `patch`: if both `base[key]` and `patch[key]` are mapping-typed,
recursively merge; otherwise `patch[key]` replaces `base[key]` (added if absent)."
Merge of a single value position. -/
def mergeVal : CVal → CVal → CVal
  | CVal.node bs, CVal.node ps => CVal.node (mergeInto bs ps)
  | _, p => p

/-- Modelled from the spec: `powergenome.util.update_dictionary`, dictionary level.
Processes the keys of the patch in order, merging each into the base dict. -/
def mergeInto : Bag → Bag → Bag
  | bs, [] => bs
  | bs, (k, pv) :: ps =>
    let newV :=
      match lookupKey k bs with
      | some bv => mergeVal bv pv
      | none => pv
    mergeInto (setKey bs k newV) ps

end

/-- The value stored for one patch key: merge with the existing value if any. -/
def mergePatchVal (b : Option CVal) (pv : CVal) : CVal :=
  match b with
  | some bv => mergeVal bv pv
  | none => pv

@[simp] theorem mergeInto_nil (bs : Bag) : mergeInto bs [] = bs := by
  rw [mergeInto]

theorem mergeInto_cons (bs : Bag) (k : String) (pv : CVal) (ps : Bag) :
    mergeInto bs ((k, pv) :: ps) =
      mergeInto (setKey bs k (mergePatchVal (lookupKey k bs) pv)) ps := by
  cases h : lookupKey k bs <;> rw [mergeInto] <;> simp [h, mergePatchVal]

@[simp] theorem mergeVal_node_node (bs ps : Bag) :
    mergeVal (CVal.node bs) (CVal.node ps) = CVal.node (mergeInto bs ps) := by
  rw [mergeVal.eq_def]

@[simp] theorem mergeVal_str_left (v : String) (p : CVal) :
    mergeVal (CVal.str v) p = p := by
  rw [mergeVal.eq_def]

@[simp] theorem mergeVal_nat_left (v : Nat) (p : CVal) :
    mergeVal (CVal.nat v) p = p := by
  rw [mergeVal.eq_def]

@[simp] theorem mergeVal_str_right (s : CVal) (v : String) :
    mergeVal s (CVal.str v) = CVal.str v := by
  rw [mergeVal.eq_def]
  cases s <;> rfl

@[simp] theorem mergeVal_nat_right (s : CVal) (v : Nat) :
    mergeVal s (CVal.nat v) = CVal.nat v := by
  rw [mergeVal.eq_def]
  cases s <;> rfl

/-! ### Further association-list facts used by the merge proofs -/

theorem setKey_eq_of_lookup {κ : Type u} {α : Type v} [DecidableEq κ]
    (l : List (κ × α)) (k : κ) (v : α) (h : lookupKey k l = some v) : setKey l k v = l := by
  induction l with
  | nil => simp at h
  | cons hd tl ih =>
    obtain ⟨k₀, v₀⟩ := hd
    by_cases h₀ : k₀ = k
    · subst h₀
      rw [lookupKey_cons, if_pos rfl] at h
      injection h with h
      simp [setKey, h]
    · simp only [lookupKey_cons, if_neg h₀] at h
      simp [setKey, h₀, ih h]

theorem lookupKey_of_mem_nodup {κ : Type u} {α : Type v} [DecidableEq κ]
    (l : List (κ × α)) (hnd : (l.map Prod.fst).Nodup) (k : κ) (v : α)
    (hm : (k, v) ∈ l) : lookupKey k l = some v := by
  induction l with
  | nil => simp at hm
  | cons hd tl ih =>
    obtain ⟨k₀, v₀⟩ := hd
    simp only [List.map_cons, List.nodup_cons] at hnd
    rcases List.mem_cons.mp hm with h | h
    · injection h with h1 h2
      subst h1
      subst h2
      simp
    · have hk : k₀ ≠ k := by
        intro hc
        subst hc
        exact hnd.1 (List.mem_map_of_mem Prod.fst h)
      simp [hk, ih hnd.2 h]

/-! ### Lookup behaviour of the merge -/

/-- Keys absent from the patch keep their original binding. -/
theorem lookupKey_mergeInto_not_mem (ps : Bag) (k : String) (hk : k ∉ ps.map Prod.fst) :
    ∀ bs, lookupKey k (mergeInto bs ps) = lookupKey k bs := by
  induction ps with
  | nil => intro bs; simp
  | cons hd tl ih =>
    obtain ⟨k₀, pv₀⟩ := hd
    intro bs
    simp only [List.map_cons, List.mem_cons] at hk
    push_neg at hk
    rw [mergeInto_cons, ih hk.2, lookupKey_setKey_ne _ _ _ _ (Ne.symm hk.1)]

/-- Keys present in the patch end bound to the merge of old and patch value. -/
theorem lookupKey_mergeInto_mem (ps : Bag) (hnd : (ps.map Prod.fst).Nodup)
    (k : String) (pv : CVal) (hm : (k, pv) ∈ ps) :
    ∀ bs, lookupKey k (mergeInto bs ps) = some (mergePatchVal (lookupKey k bs) pv) := by
  induction ps with
  | nil => simp at hm
  | cons hd tl ih =>
    obtain ⟨k₀, pv₀⟩ := hd
    intro bs
    simp only [List.map_cons, List.nodup_cons] at hnd
    rcases List.mem_cons.mp hm with h | h
    · injection h with h1 h2
      subst h1
      subst h2
      rw [mergeInto_cons, lookupKey_mergeInto_not_mem _ _ hnd.1, lookupKey_setKey_self]
    · have hk : k₀ ≠ k := by
        intro hc
        subst hc
        exact hnd.1 (List.mem_map_of_mem Prod.fst h)
      rw [mergeInto_cons, ih hnd.2 h, lookupKey_setKey_ne _ _ _ _ hk]

/-- Merging a patch that changes nothing returns the base unchanged. -/
theorem mergeInto_eq_self (ps : Bag) :
    ∀ bs, (∀ e ∈ ps, ∃ v, lookupKey e.1 bs = some v ∧ mergeVal v e.2 = v) →
      mergeInto bs ps = bs := by
  induction ps with
  | nil => intro bs _; simp
  | cons hd tl ih =>
    obtain ⟨k, pv⟩ := hd
    intro bs h
    obtain ⟨v, hv, hmv⟩ := h (k, pv) (List.mem_cons_self _ _)
    rw [mergeInto_cons, hv]
    simp only [mergePatchVal, hmv]
    rw [setKey_eq_of_lookup _ _ _ hv]
    exact ih bs (fun e he => h e (List.mem_cons_of_mem _ he))

/-- Merging the same patch twice is the same as merging it once (dict level). -/
theorem mergeInto_idem (ps : Bag) (hnd : (ps.map Prod.fst).Nodup)
    (hidem : ∀ e ∈ ps, ∀ x, mergeVal (mergeVal x e.2) e.2 = mergeVal x e.2) :
    ∀ bs, mergeInto (mergeInto bs ps) ps = mergeInto bs ps := by
  induction ps with
  | nil => intro bs; simp
  | cons hd tl ih =>
    obtain ⟨k, pv⟩ := hd
    intro bs
    simp only [List.map_cons, List.nodup_cons] at hnd
    have hpv := hidem (k, pv) (List.mem_cons_self _ _)
    have hselfpv : mergeVal pv pv = pv := by
      have h := hpv (CVal.str "")
      rwa [mergeVal_str_left] at h
    rw [mergeInto_cons, mergeInto_cons]
    have hlk : lookupKey k
        (mergeInto (setKey bs k (mergePatchVal (lookupKey k bs) pv)) tl) =
        some (mergePatchVal (lookupKey k bs) pv) := by
      rw [lookupKey_mergeInto_not_mem _ _ hnd.1, lookupKey_setKey_self]
    rw [hlk]
    have habs : mergePatchVal (some (mergePatchVal (lookupKey k bs) pv)) pv =
        mergePatchVal (lookupKey k bs) pv := by
      cases h : lookupKey k bs with
      | none => simp [mergePatchVal, hselfpv]
      | some bv =>
        simp only [mergePatchVal]
        exact hpv bv
    rw [habs, setKey_eq_of_lookup _ _ _ hlk]
    exact ih hnd.2 (fun e he x => hidem e (List.mem_cons_of_mem _ he) x) _

/-! ### Well-formed configuration trees (every mapping has distinct keys) -/

/-- Tree-shaped configuration data: every nested mapping binds distinct keys,
as a Python dict does. -/
inductive WFVal : CVal → Prop where
  | str : ∀ s, WFVal (CVal.str s)
  | nat : ∀ n, WFVal (CVal.nat n)
  | node : ∀ es, (es.map Prod.fst).Nodup → (∀ e ∈ es, WFVal e.2) → WFVal (CVal.node es)

mutual

/-- Executable check for `WFVal`. -/
def WFb : CVal → Bool
  | CVal.str _ => true
  | CVal.nat _ => true
  | CVal.node es => decide ((es.map Prod.fst).Nodup) && WFbEntries es

/-- Executable check that every entry value is well-formed. -/
def WFbEntries : List (String × CVal) → Bool
  | [] => true
  | e :: rest => WFb e.2 && WFbEntries rest

end

mutual

theorem wfval_of_wfb (v : CVal) (h : WFb v = true) : WFVal v := by
  match v, h with
  | CVal.str s, _ => exact WFVal.str s
  | CVal.nat n, _ => exact WFVal.nat n
  | CVal.node es, h =>
    rw [WFb, Bool.and_eq_true, decide_eq_true_eq] at h
    exact WFVal.node es h.1 (wfval_entries_of_wfb es h.2)
termination_by sizeOf v

theorem wfval_entries_of_wfb (es : List (String × CVal)) (h : WFbEntries es = true) :
    ∀ e ∈ es, WFVal e.2 := by
  match es, h with
  | [], _ =>
    intro e he
    exact absurd he (List.not_mem_nil _)
  | ⟨k0, v0⟩ :: rest, h =>
    simp only [WFbEntries, Bool.and_eq_true] at h
    have h0 : WFVal v0 := wfval_of_wfb v0 h.1
    have hrest := wfval_entries_of_wfb rest h.2
    intro e he
    rcases List.mem_cons.mp he with rfl | he'
    · exact h0
    · exact hrest e he'
termination_by sizeOf es

end

/-- Merging the same patch twice is the same as merging it once (value level). -/
theorem mergeVal_idem (p : CVal) (hp : WFVal p) :
    ∀ s, mergeVal (mergeVal s p) p = mergeVal s p := by
  induction hp with
  | str v => intro s; simp
  | nat v => intro s; simp
  | node es hnd _ ih =>
    have hself : ∀ e ∈ es, mergeVal e.2 e.2 = e.2 := by
      intro e he
      have h := ih e he (CVal.str "")
      rwa [mergeVal_str_left] at h
    have hes : mergeInto es es = es := by
      refine mergeInto_eq_self es es (fun e he => ?_)
      exact ⟨e.2, lookupKey_of_mem_nodup es hnd e.1 e.2 he, hself e he⟩
    intro s
    cases s with
    | str v => simp [hes]
    | nat v => simp [hes]
    | node bs =>
      simp only [mergeVal_node_node]
      rw [mergeInto_idem es hnd (fun e he => ih e he) bs]

/-! ## Fuel cost & emissions pipeline (`powergenome/fuels.py`) -/

/-- One row of the fuel price table (columns used by `fuel_cost_table`). -/
structure PriceRow where
  fuel : String
  full_fuel_name : String
  year : Nat
  price : ℚ
  deriving DecidableEq

/-- The settings keys read by `fuel_cost_table`, `adjust_ccs_fuels` and
`add_carbon_tax`.  An `Option` field models a key that may be absent from the
settings dictionary (`none` = raises `KeyError` when indexed directly, or takes
the default under `.get`). -/
structure FuelSettings where
  model_year : Nat
  fuel_emission_factors : List (String × ℚ)
  ccs_disposal_cost : Option ℚ
  ccs_capture_rate : List (String × ℚ)
  carbon_tax : Option ℚ
  reduce_time_domain : Bool
  time_domain_days_per_period : Option Nat
  time_domain_periods : Option Nat
  deriving DecidableEq

/-- One row of the intermediate `fuel_df`: a fuel with its price and emission
factor columns; `none` is a pandas `NaN` (a fuel the lookups did not resolve). -/
structure FuelRow where
  fuel : String
  cost : Option ℚ
  co2 : Option ℚ
  deriving DecidableEq

/-- The returned table: columns named by fuel, rows labeled by a time index
(0 = emission-factor row, 1..N = hourly price rows). -/
structure FuelResultTable where
  indexName : String
  cols : List String
  rows : List (Nat × List ℚ)
  deriving DecidableEq

/-- Whether `pat` is a character-wise prefix of `l`. -/
def listPrefixCheck : List Char → List Char → Bool
  | [], _ => true
  | _ :: _, [] => false
  | c :: cs, d :: ds => c == d && listPrefixCheck cs ds

/-- Python `pat in s` on strings: some suffix of `s` starts with `pat`. -/
def strContains (s pat : String) : Bool :=
  (List.range (s.data.length + 1)).any (fun i => listPrefixCheck pat.data (s.data.drop i))

/-- Python `str.split(sep)` for a one-character separator, on character lists. -/
def splitOnChar (sep : Char) : List Char → List (List Char)
  | [] => [[]]
  | c :: cs =>
    match splitOnChar sep cs, c == sep with
    | r, true => [] :: r
    | [], false => [[c]]
    | r :: rs, false => (c :: r) :: rs

/-- Python `s.split("_")`. -/
def splitUnderscore (s : String) : List String :=
  (splitOnChar '_' s.data).map String.mk

/-- Python `"_".join(parts)`. -/
def joinUnderscore : List String → String
  | [] => ""
  | [p] => p
  | p :: ps => p ++ "_" ++ joinUnderscore ps

/-- Python `s.split("_")[-1]`. -/
def lastToken (s : String) : String :=
  ((splitUnderscore s).getLast?).getD ""

/-- Python `"_".join(s.split("_")[:-1])`: drop the last underscore token. -/
def dropLastToken (s : String) : String :=
  joinUnderscore (splitUnderscore s).dropLast

/-- Python `"_".join(s.split("_")[-2:])`: the last two underscore tokens. -/
def lastTwoTokens (s : String) : String :=
  let parts := splitUnderscore s
  joinUnderscore (parts.drop (parts.length - 2))

/-- pandas NaN-propagating multiplication of a column cell by a scalar. -/
def oMul (a : Option ℚ) (b : ℚ) : Option ℚ := a.map (fun x => x * b)

/-- pandas NaN-propagating addition of two column cells. -/
def oAdd (a b : Option ℚ) : Option ℚ :=
  match a, b with
  | some x, some y => some (x + y)
  | _, _ => none

/-- pandas NaN-propagating subtraction of two column cells. -/
def oSub (a b : Option ℚ) : Option ℚ :=
  match a, b with
  | some x, some y => some (x - y)
  | _, _ => none

/-- Round to `d` decimal digits (pandas `.round(d)`; exact on `ℚ`). -/
def roundTo (d : Nat) (q : ℚ) : ℚ :=
  ((round (q * (10 : ℚ) ^ d) : ℤ) : ℚ) / (10 : ℚ) ^ d

/-- `adjust_ccs_fuels(ccs_fuel_row, settings)`: pure per-row CCS adjustment.
A row whose fuel name does not contain `"ccs"` passes through; otherwise the
disposal cost and the capture rate for the last-two-token key are fetched
(`KeyError` when absent), the captured CO2 is removed from the emission factor
and its disposal cost added to the price. -/
def adjust_ccs_fuels (ccs_fuel_row : FuelRow) (settings : FuelSettings) :
    Except String FuelRow :=
  if strContains ccs_fuel_row.fuel "ccs" then
    match settings.ccs_disposal_cost with
    | none => Except.error "KeyError: ccs_disposal_cost"
    | some disposal_cost =>
      let base_fuel_name := lastTwoTokens ccs_fuel_row.fuel
      match lookupKey base_fuel_name settings.ccs_capture_rate with
      | none => Except.error ("KeyError: ccs_capture_rate " ++ base_fuel_name)
      | some capture_rate =>
        let co2_captured := oMul ccs_fuel_row.co2 capture_rate
        Except.ok { ccs_fuel_row with
          co2 := oSub ccs_fuel_row.co2 co2_captured,
          cost := oAdd ccs_fuel_row.cost (oMul co2_captured disposal_cost) }
  else
    Except.ok ccs_fuel_row

/-- `add_carbon_tax(fuel_df, settings)`: add `emissions * carbon_tax` to every
price; `settings.get("carbon_tax") or 0` treats an absent (or zero/falsy) tax
as zero. -/
def add_carbon_tax (fuel_df : List FuelRow) (settings : FuelSettings) : List FuelRow :=
  let ctax : ℚ :=
    match settings.carbon_tax with
    | none => 0
    | some v => if v = 0 then 0 else v
  fuel_df.map (fun row => { row with cost := oAdd row.cost (oMul row.co2 ctax) })

/-- The price lookup keyed by full fuel name, from the rows of the model year
(`fuel_price_map` before the CCS loop).  `add_user_fuel_prices` is an external
collaborator; modelled from the spec: user price rows are "merged additively
(new fuel identifiers permitted)", i.e. appended to the base price table.  The
warning loop over user fuels without emission factors only logs and is omitted. -/
def initialPriceMap (fuel_costs user_fuel_costs : List PriceRow)
    (settings : FuelSettings) : List (String × ℚ) :=
  buildDict (((fuel_costs ++ user_fuel_costs).filter
    (fun r => r.year == settings.model_year)).map (fun r => (r.full_fuel_name, r.price)))

/-- `fuel_emission_map` before the CCS loop: for each priced fuel, the
emission factor of its last underscore token, defaulting to 0. -/
def initialEmissionMap (settings : FuelSettings) (pm : List (String × ℚ)) :
    List (String × ℚ) :=
  pm.map (fun p => (p.1, (lookupKey (lastToken p.1) settings.fuel_emission_factors).getD 0))

/-- The loop over roster fuels containing `"ccs"`: each copies the price and
emission factor of its base name (last token dropped) into both maps; a base
name missing from either map is an uncaught `KeyError`. -/
def ccsLoop (pm em : List (String × ℚ)) :
    List String → Except String (List (String × ℚ) × List (String × ℚ))
  | [] => Except.ok (pm, em)
  | ccs_fuel :: rest =>
    let base_name := dropLastToken ccs_fuel
    match lookupKey base_name pm with
    | none => Except.error ("KeyError: " ++ base_name)
    | some price =>
      match lookupKey base_name em with
      | none => Except.error ("KeyError: " ++ base_name)
      | some emis => ccsLoop (setKey pm ccs_fuel price) (setKey em ccs_fuel emis) rest

/-- The roster's CCS fuels, `generators.loc[...contains("ccs"), "Fuel"].unique()`. -/
def ccsFuels (generators : List String) : List String :=
  dedupFirst (generators.filter (fun f => strContains f "ccs"))

/-- Both lookup maps after the CCS loop. -/
def resolvedMaps (fuel_costs user_fuel_costs : List PriceRow) (generators : List String)
    (settings : FuelSettings) :
    Except String (List (String × ℚ) × List (String × ℚ)) :=
  let pm := initialPriceMap fuel_costs user_fuel_costs settings
  ccsLoop pm (initialEmissionMap settings pm) (ccsFuels generators)

/-- The per-fuel `(price, emission)` pairs after mapping the lookups onto the
unique roster fuels, applying `adjust_ccs_fuels` and `add_carbon_tax`, and
filling remaining missing values with 0 (`fillna(0)`), in roster order. -/
def filledRows (fuel_costs user_fuel_costs : List PriceRow) (generators : List String)
    (settings : FuelSettings) : Except String (List (String × ℚ × ℚ)) :=
  match resolvedMaps fuel_costs user_fuel_costs generators settings with
  | Except.error e => Except.error e
  | Except.ok (pm, em) =>
    let fuel_df : List FuelRow :=
      (dedupFirst generators).map (fun f => ⟨f, lookupKey f pm, lookupKey f em⟩)
    match exMapM (fun row => adjust_ccs_fuels row settings) fuel_df with
    | Except.error e => Except.error e
    | Except.ok adjusted =>
      Except.ok ((add_carbon_tax adjusted settings).map
        (fun r => (r.fuel, r.cost.getD 0, r.co2.getD 0)))

/-- The hourly row count: `days * periods * 24` under `reduce_time_domain`
(`KeyError` when the day/period counts are absent), else 8760. -/
def numHours (settings : FuelSettings) : Except String Nat :=
  if settings.reduce_time_domain then
    match settings.time_domain_days_per_period with
    | none => Except.error "KeyError: time_domain_days_per_period"
    | some days =>
      match settings.time_domain_periods with
      | none => Except.error "KeyError: time_domain_periods"
      | some time_periods => Except.ok (days * time_periods * 24)
  else
    Except.ok 8760

/-- `fuel_cost_table(fuel_costs, generators, settings)`: the full pipeline.
Row 0 carries the emission factors rounded to 5 decimals; rows `1..num_hours`
each repeat the per-fuel price rounded to 2 decimals (`pd.DataFrame` broadcasts
the single price row over the hourly index); the row index is named
`"Time_Index"` and the columns are the unique roster fuels. -/
def fuel_cost_table (fuel_costs user_fuel_costs : List PriceRow) (generators : List String)
    (settings : FuelSettings) : Except String FuelResultTable :=
  match filledRows fuel_costs user_fuel_costs generators settings with
  | Except.error e => Except.error e
  | Except.ok filled =>
    match numHours settings with
    | Except.error e => Except.error e
    | Except.ok num_hours =>
      Except.ok
        { indexName := "Time_Index",
          cols := dedupFirst generators,
          rows := (0, filled.map (fun p => roundTo 5 p.2.2)) ::
            (List.range num_hours).map
              (fun i => (i + 1, filled.map (fun p => roundTo 2 p.2.1))) }

/-! ### Behaviour of the per-row helpers -/

theorem adjust_not_ccs (row : FuelRow) (settings : FuelSettings)
    (h : strContains row.fuel "ccs" = false) :
    adjust_ccs_fuels row settings = Except.ok row := by
  simp [adjust_ccs_fuels, h]

theorem adjust_ccs_ok (row : FuelRow) (settings : FuelSettings) (r d p e : ℚ)
    (hc : strContains row.fuel "ccs" = true)
    (hd : settings.ccs_disposal_cost = some d)
    (hr : lookupKey (lastTwoTokens row.fuel) settings.ccs_capture_rate = some r)
    (he : row.co2 = some e) (hp : row.cost = some p) :
    adjust_ccs_fuels row settings =
      Except.ok ⟨row.fuel, some (p + e * r * d), some (e * (1 - r))⟩ := by
  simp only [adjust_ccs_fuels, hc, if_true, hd, hr, he, hp, oMul, oSub, oAdd, Option.map_some]
  refine congrArg Except.ok ?_
  refine congrArg₂ (fun a b => FuelRow.mk row.fuel a b) ?_ ?_
  · exact congrArg some (by ring)
  · exact congrArg some (by ring)

theorem adjust_ccs_error (row : FuelRow) (settings : FuelSettings)
    (hc : strContains row.fuel "ccs" = true)
    (h : settings.ccs_disposal_cost = none ∨
      lookupKey (lastTwoTokens row.fuel) settings.ccs_capture_rate = none) :
    ∃ e, adjust_ccs_fuels row settings = Except.error e := by
  rcases h with h | h
  · exact ⟨"KeyError: ccs_disposal_cost", by simp [adjust_ccs_fuels, hc, h]⟩
  · cases hd : settings.ccs_disposal_cost with
    | none => exact ⟨"KeyError: ccs_disposal_cost", by simp [adjust_ccs_fuels, hc, hd]⟩
    | some d =>
      exact ⟨"KeyError: ccs_capture_rate " ++ lastTwoTokens row.fuel,
        by simp [adjust_ccs_fuels, hc, hd, h]⟩

/-- The Python fallback `settings.get("carbon_tax") or 0` equals `getD 0` for a
numeric tax (0 is falsy, so `or` maps it to the same 0). -/
theorem carbon_tax_or_zero (o : Option ℚ) :
    (match o with
      | none => (0 : ℚ)
      | some v => if v = 0 then 0 else v) = o.getD 0 := by
  cases o with
  | none => rfl
  | some v =>
    by_cases h : v = 0 <;> simp [h]

/-! ### Behaviour of the CCS loop -/

/-- The CCS loop only writes keys from its fuel list: other keys keep their
lookup results. -/
theorem ccsLoop_preserve (l : List String) :
    ∀ pm em pm' em', ccsLoop pm em l = Except.ok (pm', em') →
      ∀ k, k ∉ l → lookupKey k pm' = lookupKey k pm ∧ lookupKey k em' = lookupKey k em := by
  induction l with
  | nil =>
    intro pm em pm' em' h k _
    rw [ccsLoop] at h
    injection h with h
    injection h with h1 h2
    rw [← h1, ← h2]
    exact ⟨rfl, rfl⟩
  | cons f rest ih =>
    intro pm em pm' em' h k hk
    rw [ccsLoop] at h
    cases hp : lookupKey (dropLastToken f) pm with
    | none => rw [hp] at h; cases h
    | some price =>
      rw [hp] at h
      cases hq : lookupKey (dropLastToken f) em with
      | none => rw [hq] at h; cases h
      | some emis =>
        rw [hq] at h
        have hk1 : k ≠ f := fun hc => hk (hc ▸ List.mem_cons_self f rest)
        have hk2 : k ∉ rest := fun hc => hk (List.mem_cons_of_mem f hc)
        obtain ⟨h1, h2⟩ := ih _ _ _ _ h k hk2
        rw [h1, h2, lookupKey_setKey_ne _ _ _ _ (Ne.symm hk1),
          lookupKey_setKey_ne _ _ _ _ (Ne.symm hk1)]
        exact ⟨rfl, rfl⟩

/-- If the CCS loop finished, every fuel's base name was resolvable: it was
priced in the incoming map or is itself one of the loop's CCS fuels. -/
theorem ccsLoop_ok_base (l : List String) :
    ∀ pm em pm' em', ccsLoop pm em l = Except.ok (pm', em') →
      ∀ c ∈ l, (lookupKey (dropLastToken c) pm).isSome = true ∨ dropLastToken c ∈ l := by
  induction l with
  | nil => intro pm em pm' em' _ c hc; simp at hc
  | cons f rest ih =>
    intro pm em pm' em' h c hc
    rw [ccsLoop] at h
    cases hp : lookupKey (dropLastToken f) pm with
    | none => rw [hp] at h; cases h
    | some price =>
      rw [hp] at h
      cases hq : lookupKey (dropLastToken f) em with
      | none => rw [hq] at h; cases h
      | some emis =>
        rw [hq] at h
        rcases List.mem_cons.mp hc with rfl | hc'
        · exact Or.inl (by simp [hp])
        · rcases ih _ _ _ _ h c hc' with h' | h'
          · rcases (lookupKey_setKey_isSome pm (dropLastToken c) f price).mp
              (by simpa using h') with h'' | h''
            · exact Or.inr (h'' ▸ List.mem_cons_self f rest)
            · exact Or.inl h''
          · exact Or.inr (List.mem_cons_of_mem f h')

/-- The CCS loop never loses resolvability of a key. -/
theorem ccsLoop_mono (l : List String) :
    ∀ pm em pm' em', ccsLoop pm em l = Except.ok (pm', em') →
      ∀ k, ((lookupKey k pm).isSome = true → (lookupKey k pm').isSome = true) ∧
        ((lookupKey k em).isSome = true → (lookupKey k em').isSome = true) := by
  induction l with
  | nil =>
    intro pm em pm' em' h k
    rw [ccsLoop] at h
    injection h with h
    injection h with h1 h2
    rw [← h1, ← h2]
    exact ⟨id, id⟩
  | cons f rest ih =>
    intro pm em pm' em' h k
    rw [ccsLoop] at h
    cases hp : lookupKey (dropLastToken f) pm with
    | none => rw [hp] at h; cases h
    | some price =>
      rw [hp] at h
      cases hq : lookupKey (dropLastToken f) em with
      | none => rw [hq] at h; cases h
      | some emis =>
        rw [hq] at h
        obtain ⟨h1, h2⟩ := ih _ _ _ _ h k
        constructor
        · intro hs
          exact h1 ((lookupKey_setKey_isSome pm k f price).mpr (Or.inr hs))
        · intro hs
          exact h2 ((lookupKey_setKey_isSome em k f emis).mpr (Or.inr hs))

/-- After a finished CCS loop, every CCS fuel is present in both maps. -/
theorem ccsLoop_resolves (l : List String) :
    ∀ pm em pm' em', ccsLoop pm em l = Except.ok (pm', em') →
      ∀ c ∈ l, (lookupKey c pm').isSome = true ∧ (lookupKey c em').isSome = true := by
  induction l with
  | nil => intro pm em pm' em' _ c hc; simp at hc
  | cons f rest ih =>
    intro pm em pm' em' h c hc
    rw [ccsLoop] at h
    cases hp : lookupKey (dropLastToken f) pm with
    | none => rw [hp] at h; cases h
    | some price =>
      rw [hp] at h
      cases hq : lookupKey (dropLastToken f) em with
      | none => rw [hq] at h; cases h
      | some emis =>
        rw [hq] at h
        rcases List.mem_cons.mp hc with rfl | hc'
        · obtain ⟨h1, h2⟩ := ccsLoop_mono rest _ _ _ _ h c
          exact ⟨h1 ((lookupKey_setKey_isSome pm c c price).mpr (Or.inl rfl)),
            h2 ((lookupKey_setKey_isSome em c c emis).mpr (Or.inl rfl))⟩
        · exact ih _ _ _ _ h c hc'

/-- The loop keeps the price and emission maps defined on the same keys. -/
theorem ccsLoop_sync (l : List String) :
    ∀ pm em pm' em', ccsLoop pm em l = Except.ok (pm', em') →
      (∀ k, (lookupKey k pm).isSome = (lookupKey k em).isSome) →
      ∀ k, (lookupKey k pm').isSome = (lookupKey k em').isSome := by
  induction l with
  | nil =>
    intro pm em pm' em' h hsync k
    rw [ccsLoop] at h
    injection h with h
    injection h with h1 h2
    rw [← h1, ← h2]
    exact hsync k
  | cons f rest ih =>
    intro pm em pm' em' h hsync k
    rw [ccsLoop] at h
    cases hp : lookupKey (dropLastToken f) pm with
    | none => rw [hp] at h; cases h
    | some price =>
      rw [hp] at h
      cases hq : lookupKey (dropLastToken f) em with
      | none => rw [hq] at h; cases h
      | some emis =>
        rw [hq] at h
        refine ih _ _ _ _ h (fun k' => ?_) k
        by_cases hf : f = k'
        · subst hf
          rw [lookupKey_setKey_self, lookupKey_setKey_self]
          rfl
        · rw [lookupKey_setKey_ne _ _ _ _ hf, lookupKey_setKey_ne _ _ _ _ hf]
          exact hsync k'

/-- Keys of the derived emission map are those of the price map. -/
theorem initialEmissionMap_sync (settings : FuelSettings) (pm : List (String × ℚ)) :
    ∀ k, (lookupKey k pm).isSome = (lookupKey k (initialEmissionMap settings pm)).isSome := by
  intro k
  rw [initialEmissionMap]
  induction pm with
  | nil => rfl
  | cons hd tl ih =>
    by_cases h : hd.1 = k <;> simp [lookupKey, h, ih]

/-- The CCS loop copies the base fuel's price and emission factor onto the CCS
fuel, regardless of what either map bound under the CCS fuel's own name. -/
theorem ccsLoop_copies_base (l : List String) :
    ∀ pm em pm' em', l.Nodup → ccsLoop pm em l = Except.ok (pm', em') →
      ∀ c ∈ l, dropLastToken c ∉ l →
        lookupKey c pm' = lookupKey (dropLastToken c) pm ∧
        lookupKey c em' = lookupKey (dropLastToken c) em := by
  induction l with
  | nil => intro pm em pm' em' _ _ c hc; simp at hc
  | cons f rest ih =>
    intro pm em pm' em' hnd h c hc hb
    rw [ccsLoop] at h
    cases hp : lookupKey (dropLastToken f) pm with
    | none => rw [hp] at h; cases h
    | some price =>
      rw [hp] at h
      cases hq : lookupKey (dropLastToken f) em with
      | none => rw [hq] at h; cases h
      | some emis =>
        rw [hq] at h
        rcases List.mem_cons.mp hc with rfl | hc'
        · have hfr : c ∉ rest := (List.nodup_cons.mp hnd).1
          obtain ⟨h1, h2⟩ := ccsLoop_preserve rest _ _ _ _ h c hfr
          rw [h1, h2, lookupKey_setKey_self, lookupKey_setKey_self, hp, hq]
          exact ⟨rfl, rfl⟩
        · have hbf : dropLastToken c ≠ f :=
            fun hc2 => hb (hc2 ▸ List.mem_cons_self f rest)
          have hbr : dropLastToken c ∉ rest :=
            fun hc2 => hb (List.mem_cons_of_mem f hc2)
          obtain ⟨h1, h2⟩ := ih _ _ _ _ (List.nodup_cons.mp hnd).2 h c hc' hbr
          rw [h1, h2, lookupKey_setKey_ne _ _ _ _ (Ne.symm hbf),
            lookupKey_setKey_ne _ _ _ _ (Ne.symm hbf)]
          exact ⟨rfl, rfl⟩

/-! ## Claim theorems -/

/-- **C8**: for every (base, patch) pair of tree-shaped configuration mappings,
the `update_dictionary` merge leaves every key absent from the patch bound to
its original value; for every key of the patch the new binding is the
recursive merge when both values are mappings and the patch's value otherwise
(added when absent from the base); and the merge is idempotent in the patch:
`merge (merge s p) p = merge s p`. -/
theorem update_dictionary_props (base patch : Bag) (hwf : WFVal (CVal.node patch)) :
    (∀ k, k ∉ patch.map Prod.fst →
      lookupKey k (mergeInto base patch) = lookupKey k base) ∧
    (∀ k pv bv, (k, pv) ∈ patch → lookupKey k base = some bv →
      lookupKey k (mergeInto base patch) = some (mergeVal bv pv)) ∧
    (∀ k pv, (k, pv) ∈ patch → lookupKey k base = none →
      lookupKey k (mergeInto base patch) = some pv) ∧
    mergeInto (mergeInto base patch) patch = mergeInto base patch := by
  cases hwf with
  | node _ hnd hvals =>
    refine ⟨?_, ?_, ?_, ?_⟩
    · intro k hk
      exact lookupKey_mergeInto_not_mem patch k hk base
    · intro k pv bv hm hb
      rw [lookupKey_mergeInto_mem patch hnd k pv hm base, hb]
      rfl
    · intro k pv hm hb
      rw [lookupKey_mergeInto_mem patch hnd k pv hm base, hb]
      rfl
    · exact mergeInto_idem patch hnd (fun e he => mergeVal_idem e.2 (hvals e he)) base

/-- A concrete settings dictionary used to witness C8. -/
def mergeWitnessBase : Bag :=
  [("a", CVal.nat 1), ("b", CVal.node [("x", CVal.nat 2), ("y", CVal.str "keep")])]

/-- A concrete patch used to witness C8. -/
def mergeWitnessPatch : Bag :=
  [("b", CVal.node [("x", CVal.nat 5)]), ("c", CVal.str "new")]

theorem update_dictionary_props_witness :
    lookupKey "a" (mergeInto mergeWitnessBase mergeWitnessPatch) =
      lookupKey "a" mergeWitnessBase ∧
    mergeInto (mergeInto mergeWitnessBase mergeWitnessPatch) mergeWitnessPatch =
      mergeInto mergeWitnessBase mergeWitnessPatch :=
  ⟨(update_dictionary_props mergeWitnessBase mergeWitnessPatch
      (wfval_of_wfb _ (by decide))).1 "a" (by decide),
   (update_dictionary_props mergeWitnessBase mergeWitnessPatch
      (wfval_of_wfb _ (by decide))).2.2.2⟩

/-- The settings of the spec's worked CCS example: natural gas at 0.053 tons
CO2/MMBtu, 90% capture for `NG_ccs`, 10 USD/ton disposal. -/
def ngExampleSettings : FuelSettings :=
  ⟨2030, [("NG", 53/1000)], some 10, [("NG_ccs", 9/10)], none, false, none, none⟩

/-- **C3**: `adjust_ccs_fuels` is pure on a fuel row: a fuel whose name does
not contain `"ccs"` passes through unchanged; otherwise, with capture rate `r`
looked up under the last two underscore tokens of the name and disposal cost
`d`, the new emissions are `e * (1 - r)` and the new price is `p + e * r * d`.
In particular price 3.00 and emission factor 0.053 with `r = 0.9`, `d = 10`
give emissions 0.0053 and price 3.477. -/
theorem adjust_ccs_fuels_spec :
    (∀ (row : FuelRow) (s : FuelSettings), strContains row.fuel "ccs" = false →
      adjust_ccs_fuels row s = Except.ok row) ∧
    (∀ (row : FuelRow) (s : FuelSettings) (r d p e : ℚ),
      strContains row.fuel "ccs" = true →
      s.ccs_disposal_cost = some d →
      lookupKey (lastTwoTokens row.fuel) s.ccs_capture_rate = some r →
      row.co2 = some e → row.cost = some p →
      adjust_ccs_fuels row s =
        Except.ok ⟨row.fuel, some (p + e * r * d), some (e * (1 - r))⟩) ∧
    adjust_ccs_fuels ⟨"NG_ccs", some 3, some (53/1000)⟩ ngExampleSettings =
      Except.ok ⟨"NG_ccs", some (3477/1000), some (53/10000)⟩ := by
  refine ⟨adjust_not_ccs, adjust_ccs_ok, ?_⟩
  rw [adjust_ccs_ok ⟨"NG_ccs", some 3, some (53/1000)⟩ ngExampleSettings
    (9/10) 10 3 (53/1000) (by decide) rfl rfl rfl rfl]
  simp only [Except.ok.injEq, FuelRow.mk.injEq, Option.some.injEq]
  norm_num

theorem adjust_ccs_fuels_spec_witness :
    adjust_ccs_fuels ⟨"NG_ccs", some 3, some (53/1000)⟩ ngExampleSettings =
      Except.ok ⟨"NG_ccs", some (3 + (53/1000) * (9/10) * 10),
        some ((53/1000) * (1 - 9/10))⟩ :=
  adjust_ccs_fuels_spec.2.1 ⟨"NG_ccs", some 3, some (53/1000)⟩ ngExampleSettings
    (9/10) 10 3 (53/1000) (by decide) rfl rfl rfl rfl

/-- Settings with a carbon tax of 5, for the C4 example. -/
def ctaxExampleSettings : FuelSettings :=
  ⟨2030, [("NG", 53/1000)], some 10, [("NG_ccs", 9/10)], some 5, false, none, none⟩

/-- **C4**: after the CCS adjustment the pipeline applies a flat carbon tax to
every fuel row: the final price is the post-capture price plus post-capture
emissions times `carbon_tax`, and an absent `carbon_tax` leaves prices
unchanged (treated as 0).  In particular tax 5 on emissions 0.0053 and price
3.477 gives 3.5035.  (The unchanged-price conclusion assumes the row is not a
lone-`NaN`-emission row — in the pipeline a missing emission factor occurs only
together with a missing price.) -/
theorem add_carbon_tax_spec :
    (∀ (rows : List FuelRow) (s : FuelSettings),
      List.Forall₂ (fun r r' =>
        r'.fuel = r.fuel ∧ r'.co2 = r.co2 ∧
        (∀ p e, r.cost = some p → r.co2 = some e →
          r'.cost = some (p + e * (s.carbon_tax.getD 0))) ∧
        (s.carbon_tax = none → (r.co2.isSome = true ∨ r.cost = none) →
          r'.cost = r.cost)) rows (add_carbon_tax rows s)) ∧
    add_carbon_tax [⟨"NG_ccs", some (3477/1000), some (53/10000)⟩] ctaxExampleSettings =
      [⟨"NG_ccs", some (35035/10000), some (53/10000)⟩] := by
  constructor
  · intro rows s
    rw [add_carbon_tax]
    rw [List.forall₂_map_right_iff]
    rw [List.forall₂_same]
    intro r _
    refine ⟨rfl, rfl, ?_, ?_⟩
    · intro p e hp he
      rw [hp, he, carbon_tax_or_zero]
      rfl
    · intro htax hrow
      rw [htax]
      cases he : r.co2 with
      | some e =>
        cases hp : r.cost with
        | some p => simp [hp, he, oMul, oAdd]
        | none => simp [hp, he, oMul, oAdd]
      | none =>
        rcases hrow with hrow | hrow
        · rw [he] at hrow
          cases hrow
        · simp [hrow, he, oMul, oAdd]
  · have harith : (3477/1000 : ℚ) + (53/10000) * 5 = 35035/10000 := by norm_num
    simp only [add_carbon_tax, carbon_tax_or_zero, List.map, oAdd, oMul, Option.map_some,
      Option.getD_some]
    rw [← harith]
    rfl

theorem add_carbon_tax_spec_witness :
    ∃ (r' : FuelRow), add_carbon_tax [⟨"NG_ccs", some (3477/1000), some (53/10000)⟩]
        ctaxExampleSettings = [r'] ∧
      r'.cost = some (3477/1000 + 53/10000 * 5) := by
  have h := add_carbon_tax_spec.1
    [⟨"NG_ccs", some (3477/1000), some (53/10000)⟩] ctaxExampleSettings
  cases hred : add_carbon_tax [⟨"NG_ccs", some (3477/1000), some (53/10000)⟩]
      ctaxExampleSettings with
  | nil =>
    rw [hred] at h
    cases h
  | cons r' rest =>
    rw [hred] at h
    cases h with
    | cons hr htl =>
      cases htl
      exact ⟨r', rfl, hr.2.2.1 (3477/1000) (53/10000) rfl rfl⟩

/-- **C5**: the result table is indexed `"Time_Index"`; row 0 holds the
per-fuel emission factors rounded to 5 decimals; rows `1..N` all hold the same
per-fuel prices rounded to 2 decimals; and `N` is
`days_per_period * periods * 24` when `reduce_time_domain` is set, 8760
otherwise. -/
theorem fuel_cost_table_shape (fc ufc : List PriceRow) (gens : List String)
    (s : FuelSettings) (t : FuelResultTable) (filled : List (String × ℚ × ℚ)) (n : Nat)
    (hf : filledRows fc ufc gens s = Except.ok filled)
    (hn : numHours s = Except.ok n)
    (ht : fuel_cost_table fc ufc gens s = Except.ok t) :
    t.indexName = "Time_Index" ∧
    t.rows.length = n + 1 ∧
    t.rows.map Prod.fst = List.range (n + 1) ∧
    t.rows.head? = some (0, filled.map (fun p => roundTo 5 p.2.2)) ∧
    (∀ r ∈ t.rows.tail, r.2 = filled.map (fun p => roundTo 2 p.2.1)) ∧
    (s.reduce_time_domain = true →
      n = s.time_domain_days_per_period.getD 0 * s.time_domain_periods.getD 0 * 24) ∧
    (s.reduce_time_domain = false → n = 8760) := by
  simp only [fuel_cost_table, hf, hn] at ht
  injection ht with ht
  subst ht
  refine ⟨rfl, ?_, ?_, rfl, ?_, ?_, ?_⟩
  · simp [Nat.add_comm]
  · simp only [List.map_cons, List.map_map]
    rw [List.range_succ_eq_map]
    simp [Function.comp_def, Nat.succ_eq_add_one]
  · intro r hr
    simp only [List.tail_cons] at hr
    rcases List.mem_map.mp hr with ⟨i, _, rfl⟩
    rfl
  · intro htrue
    rw [numHours, if_pos htrue] at hn
    cases hd : s.time_domain_days_per_period with
    | none => rw [hd] at hn; cases hn
    | some days =>
      rw [hd] at hn
      cases hp : s.time_domain_periods with
      | none => rw [hp] at hn; cases hn
      | some periods =>
        rw [hp] at hn
        injection hn with hn
        simp [← hn]
  · intro hfalse
    rw [numHours, if_neg (by simp [hfalse])] at hn
    injection hn with hn
    exact hn.symm

/-- Price table, generator roster and settings for the fuel-table witnesses:
one priced fuel `NG` plus its derived `NG_ccs`, reduced time domain 1 day and
1 period (so 24 hourly rows). -/
def wFuelCosts : List PriceRow := [⟨"NG", "NG", 2030, 3⟩]

/-- Witness roster. -/
def wGens : List String := ["NG", "NG_ccs"]

/-- Witness settings. -/
def wSettings : FuelSettings :=
  ⟨2030, [("NG", 53/1000)], some 10, [("NG_ccs", 9/10)], some 5, true, some 1, some 1⟩

/-- The table produced from the witness inputs. -/
def wTable : FuelResultTable :=
  (fuel_cost_table wFuelCosts [] wGens wSettings).toOption.getD ⟨"", [], []⟩

/-- The filled per-fuel rows produced from the witness inputs. -/
def wFilled : List (String × ℚ × ℚ) :=
  (filledRows wFuelCosts [] wGens wSettings).toOption.getD []

theorem fuel_cost_table_shape_witness :
    wTable.indexName = "Time_Index" ∧
    wTable.rows.length = 24 + 1 ∧
    wTable.rows.map Prod.fst = List.range (24 + 1) ∧
    wTable.rows.head? = some (0, wFilled.map (fun p => roundTo 5 p.2.2)) ∧
    (∀ r ∈ wTable.rows.tail, r.2 = wFilled.map (fun p => roundTo 2 p.2.1)) ∧
    (wSettings.reduce_time_domain = true →
      24 = wSettings.time_domain_days_per_period.getD 0 *
        wSettings.time_domain_periods.getD 0 * 24) ∧
    (wSettings.reduce_time_domain = false → 24 = 8760) :=
  fuel_cost_table_shape wFuelCosts [] wGens wSettings wTable wFilled 24 rfl rfl rfl

/-- **C10**: for a roster fuel containing `"ccs"`, the pipeline takes its
pre-adjustment price and emission factor from the base fuel (name with the
last underscore token dropped), regardless of what the model-year price lookup
bound under the CCS fuel's own full name. -/
theorem ccs_fuel_takes_base_values (fc ufc : List PriceRow) (gens : List String)
    (s : FuelSettings) (pm em : List (String × ℚ)) (c : String)
    (hm : resolvedMaps fc ufc gens s = Except.ok (pm, em))
    (hc : c ∈ ccsFuels gens) (hb : dropLastToken c ∉ ccsFuels gens) :
    lookupKey c pm = lookupKey (dropLastToken c) (initialPriceMap fc ufc s) ∧
    lookupKey c em =
      lookupKey (dropLastToken c) (initialEmissionMap s (initialPriceMap fc ufc s)) := by
  simp only [resolvedMaps] at hm
  exact ccsLoop_copies_base (ccsFuels gens) _ _ pm em (nodup_dedupFirst _) hm c hc hb

/-- Price table for the C10 witness: the CCS name itself carries a (to be
ignored) price of 99 next to the base fuel's price of 3. -/
def w10FuelCosts : List PriceRow :=
  [⟨"NG", "NG", 2030, 3⟩, ⟨"NG_ccs", "NG_ccs", 2030, 99⟩]

/-- Settings for the C10 witness. -/
def w10Settings : FuelSettings :=
  ⟨2030, [("NG", 53/1000)], some 10, [("NG_ccs", 9/10)], none, false, none, none⟩

/-- The resolved maps of the C10 witness run. -/
def w10Maps : List (String × ℚ) × List (String × ℚ) :=
  (resolvedMaps w10FuelCosts [] ["NG_ccs"] w10Settings).toOption.getD ([], [])

theorem ccs_fuel_takes_base_values_witness :
    lookupKey "NG_ccs" (initialPriceMap w10FuelCosts [] w10Settings) = some 99 ∧
    lookupKey "NG_ccs" w10Maps.1 =
      lookupKey "NG" (initialPriceMap w10FuelCosts [] w10Settings) :=
  ⟨rfl,
   (ccs_fuel_takes_base_values w10FuelCosts [] ["NG_ccs"] w10Settings
      w10Maps.1 w10Maps.2 "NG_ccs" rfl (by decide) (by decide)).1⟩

/-- **C7**: for a roster fuel containing `"ccs"`, the pipeline fails with an
unhandled lookup error — never defaults — when (a) the price lookup has no
entry for the base identifier (neither a model-year price row nor an earlier
CCS insertion can supply one), or (b) the settings lack a capture rate for the
fuel's derived key or lack a disposal cost. -/
theorem fuel_cost_table_ccs_fatal (fc ufc : List PriceRow) (gens : List String)
    (s : FuelSettings) (f : String)
    (hf : f ∈ gens) (hccs : strContains f "ccs" = true)
    (hfail :
      (lookupKey (dropLastToken f) (initialPriceMap fc ufc s) = none ∧
        dropLastToken f ∉ ccsFuels gens) ∨
      s.ccs_disposal_cost = none ∨
      lookupKey (lastTwoTokens f) s.ccs_capture_rate = none) :
    ∃ e, fuel_cost_table fc ufc gens s = Except.error e := by
  cases hm : resolvedMaps fc ufc gens s with
  | error e =>
    refine ⟨e, ?_⟩
    simp [fuel_cost_table, filledRows, hm]
  | ok maps =>
    obtain ⟨pm, em⟩ := maps
    have hcf : f ∈ ccsFuels gens := by
      rw [ccsFuels, mem_dedupFirst, List.mem_filter]
      exact ⟨hf, hccs⟩
    rcases hfail with ⟨hnone, hnotccs⟩ | hfail
    · exfalso
      simp only [resolvedMaps] at hm
      rcases ccsLoop_ok_base (ccsFuels gens) _ _ pm em hm f hcf with h | h
      · rw [hnone] at h
        simp at h
      · exact hnotccs h
    · have hrowmem : (⟨f, lookupKey f pm, lookupKey f em⟩ : FuelRow) ∈
          (dedupFirst gens).map
            (fun g => (⟨g, lookupKey g pm, lookupKey g em⟩ : FuelRow)) :=
        List.mem_map_of_mem _ ((mem_dedupFirst gens f).mpr hf)
      obtain ⟨e, he⟩ :=
        adjust_ccs_error ⟨f, lookupKey f pm, lookupKey f em⟩ s hccs hfail
      obtain ⟨e', he'⟩ := exMapM_error_of_mem (fun row => adjust_ccs_fuels row s) _
        ⟨_, hrowmem, e, he⟩
      refine ⟨e', ?_⟩
      simp [fuel_cost_table, filledRows, hm, he']

/-- Settings for the C7 witness: the CCS fuel is declared but no disposal cost
is configured. -/
def w7Settings : FuelSettings :=
  ⟨2030, [("NG", 53/1000)], none, [("NG_ccs", 9/10)], none, false, none, none⟩

theorem fuel_cost_table_ccs_fatal_witness :
    ∃ e, fuel_cost_table wFuelCosts [] wGens w7Settings = Except.error e :=
  fuel_cost_table_ccs_fatal wFuelCosts [] wGens w7Settings "NG_ccs"
    (by decide) (by decide) (Or.inr (Or.inl rfl))

/-- `roundTo` fixes 0. -/
theorem roundTo_zero (d : Nat) : roundTo d 0 = 0 := by
  simp [roundTo]

theorem forall₂_getElem? {α : Type u} {β : Type v} {R : α → β → Prop}
    {l₁ : List α} {l₂ : List β} (h : List.Forall₂ R l₁ l₂) :
    ∀ {i : Nat} {x : α} {y : β}, l₁[i]? = some x → l₂[i]? = some y → R x y := by
  induction h with
  | nil =>
    intro i x y h1 _
    simp at h1
  | cons hR _ ih =>
    intro i x y h1 h2
    cases i with
    | zero =>
      simp only [List.getElem?_cons_zero] at h1 h2
      injection h1 with h1
      injection h2 with h2
      rw [← h1, ← h2]
      exact hR
    | succ j =>
      simp only [List.getElem?_cons_succ] at h1 h2
      exact ih h1 h2

/-- **C6**: every unique roster fuel is exactly one column of the output (no
duplicates, no omissions), and a fuel the price/emission lookups could not
resolve ends with 0 in every output row rather than a missing value. -/
theorem fuel_cost_table_columns (fc ufc : List PriceRow) (gens : List String)
    (s : FuelSettings) (pm em : List (String × ℚ)) (t : FuelResultTable)
    (hm : resolvedMaps fc ufc gens s = Except.ok (pm, em))
    (ht : fuel_cost_table fc ufc gens s = Except.ok t) :
    t.cols.Nodup ∧
    (∀ f, f ∈ t.cols ↔ f ∈ gens) ∧
    (∀ i f, i < t.cols.length → t.cols.getD i "" = f →
      (lookupKey f pm = none ∨ lookupKey f em = none) →
      ∀ r ∈ t.rows, r.2.getD i 0 = 0) := by
  cases hfr : filledRows fc ufc gens s with
  | error e => simp [fuel_cost_table, hfr] at ht
  | ok filled =>
  cases hn : numHours s with
  | error e => simp [fuel_cost_table, hfr, hn] at ht
  | ok n =>
  simp only [fuel_cost_table, hfr, hn] at ht
  injection ht with ht
  subst ht
  refine ⟨nodup_dedupFirst gens, fun f => mem_dedupFirst gens f, ?_⟩
  intro i f hi hf hnone r hr
  have hi' : i < (dedupFirst gens).length := hi
  have hf' : (dedupFirst gens).getD i "" = f := hf
  have hgetf : (dedupFirst gens)[i] = f := by
    rw [List.getD_eq_getElem?_getD, List.getElem?_eq_getElem hi'] at hf'
    simpa using hf'
  have hfd : f ∈ dedupFirst gens := hgetf ▸ List.getElem_mem hi'
  have hsync : ∀ k, (lookupKey k pm).isSome = (lookupKey k em).isSome := by
    have hm' := hm
    simp only [resolvedMaps] at hm'
    exact ccsLoop_sync (ccsFuels gens) _ _ pm em hm'
      (initialEmissionMap_sync s (initialPriceMap fc ufc s))
  have hboth : lookupKey f pm = none ∧ lookupKey f em = none := by
    rcases hnone with h | h
    · refine ⟨h, ?_⟩
      have hs := hsync f
      rw [h] at hs
      cases hem : lookupKey f em with
      | none => rfl
      | some v => rw [hem] at hs; simp at hs
    · refine ⟨?_, h⟩
      have hs := hsync f
      rw [h] at hs
      cases hpm : lookupKey f pm with
      | none => rfl
      | some v => rw [hpm] at hs; simp at hs
  have hnotccs : strContains f "ccs" = false := by
    cases hsc : strContains f "ccs" with
    | false => rfl
    | true =>
      exfalso
      have hcf : f ∈ ccsFuels gens := by
        rw [ccsFuels, mem_dedupFirst, List.mem_filter]
        exact ⟨(mem_dedupFirst gens f).mp hfd, hsc⟩
      have hm' := hm
      simp only [resolvedMaps] at hm'
      have hres := ccsLoop_resolves (ccsFuels gens) _ _ pm em hm' f hcf
      rw [hboth.1] at hres
      simp at hres
  have hfr' := hfr
  simp only [filledRows, hm] at hfr'
  cases hadj : exMapM (fun row => adjust_ccs_fuels row s)
      ((dedupFirst gens).map
        (fun f => (⟨f, lookupKey f pm, lookupKey f em⟩ : FuelRow))) with
  | error e => rw [hadj] at hfr'; cases hfr'
  | ok adjusted =>
  rw [hadj] at hfr'
  injection hfr' with hfr'
  have hforall := exMapM_forall₂_of_ok (fun row => adjust_ccs_fuels row s) _ adjusted hadj
  have hilen2 : i < adjusted.length := by
    rw [← hforall.length_eq]
    simpa using hi'
  have hdfi : ((dedupFirst gens).map
      (fun f => (⟨f, lookupKey f pm, lookupKey f em⟩ : FuelRow)))[i]? =
      some ⟨f, none, none⟩ := by
    simp [List.getElem?_map, List.getElem?_eq_getElem hi', hgetf, hboth.1, hboth.2]
  have hstep' : adjust_ccs_fuels ⟨f, none, none⟩ s = Except.ok adjusted[i] :=
    forall₂_getElem? hforall hdfi (List.getElem?_eq_getElem hilen2)
  rw [adjust_not_ccs ⟨f, none, none⟩ s hnotccs] at hstep'
  injection hstep' with hadji
  have hfilledi : filled[i]? = some (f, 0, 0) := by
    rw [← hfr', List.getElem?_map]
    simp only [add_carbon_tax]
    rw [List.getElem?_map, List.getElem?_eq_getElem hilen2, ← hadji]
    rfl
  rcases List.mem_cons.mp hr with rfl | hr'
  · show (filled.map (fun p => roundTo 5 p.2.2)).getD i 0 = 0
    rw [List.getD_eq_getElem?_getD, List.getElem?_map, hfilledi]
    simp [roundTo_zero]
  · rcases List.mem_map.mp hr' with ⟨j, _, rfl⟩
    show (filled.map (fun p => roundTo 2 p.2.1)).getD i 0 = 0
    rw [List.getD_eq_getElem?_getD, List.getElem?_map, hfilledi]
    simp [roundTo_zero]

/-- Roster for the C6 witness: `biomass` has no price row. -/
def w6Gens : List String := ["NG", "biomass"]

/-- Settings for the C6 witness (0 periods, so only the emission row). -/
def w6Settings : FuelSettings :=
  ⟨2030, [("NG", 53/1000)], some 10, [("NG_ccs", 9/10)], some 5, true, some 1, some 0⟩

/-- The resolved maps of the C6 witness run. -/
def w6Maps : List (String × ℚ) × List (String × ℚ) :=
  (resolvedMaps wFuelCosts [] w6Gens w6Settings).toOption.getD ([], [])

/-- The table of the C6 witness run. -/
def w6Table : FuelResultTable :=
  (fuel_cost_table wFuelCosts [] w6Gens w6Settings).toOption.getD ⟨"", [], []⟩

theorem fuel_cost_table_columns_witness :
    w6Table.cols.Nodup ∧
    ("biomass" ∈ w6Table.cols ↔ "biomass" ∈ w6Gens) ∧
    (w6Table.rows.getD 0 (0, [])).2.getD 1 0 = 0 := by
  have h := fuel_cost_table_columns wFuelCosts [] w6Gens w6Settings
    w6Maps.1 w6Maps.2 w6Table rfl rfl
  have hrow : w6Table.rows.getD 0 (0, []) ∈ w6Table.rows :=
    List.mem_of_mem_head?
      (show w6Table.rows.head? = some (w6Table.rows.getD 0 (0, [])) from rfl)
  have hlen : 1 < w6Table.cols.length := by
    have h2 : w6Table.cols.length = 2 := rfl
    rw [h2]
    decide
  exact ⟨h.1, h.2.1 "biomass",
    h.2.2 1 "biomass" hlen rfl (Or.inl rfl) _ hrow⟩

/-! ## Scenario settings builder
(`build_scenario_settings` in `run_powergenome_multiple_outputs_cli.py`) -/

/-- One row of the scenario-definition table: a case id, a planning year, and
one cell per override-category column. -/
structure ScenRow where
  case_id : String
  year : Nat
  cells : List (String × String)
  deriving DecidableEq

/-- The scenario-definition table: its category columns (all columns except
`case_id` and `year`, in column order) and its rows. -/
structure ScenTable where
  cats : List String
  rows : List ScenRow
  deriving DecidableEq

/-- The parts of the base settings dictionary read by the builder, plus the
free-form remainder (`bag`) onto which scenario values and patches are laid. -/
structure BuilderSettings where
  model_year : List Nat
  model_first_planning_year : List Nat
  settings_management : List (Nat × List (String × List (String × Bag)))
  bag : Bag

/-- The cell of row `r` in category column `cat` (every column is present in
every row of a rectangular table). -/
def cellValue (r : ScenRow) (cat : String) : String :=
  (lookupKey cat r.cells).getD ""

/-- One column of `…set_index("case_id").to_dict()`: case id → cell value for
the rows of one year (later duplicate ids overwrite, as in a dict build). -/
def pivotCat (rowsY : List ScenRow) (cat : String) : List (String × String) :=
  buildDict (rowsY.map (fun r => (r.case_id, cellValue r cat)))

/-- `scenario_definitions.loc[(case_id == c) & (year == y)].squeeze().at[col]`:
usable only when the selection is exactly one row, otherwise `.at` on the
squeezed frame raises. -/
def rowFor (tbl : ScenTable) (c : String) (y : Nat) : Except String ScenRow :=
  match tbl.rows.filter (fun r => r.case_id == c && r.year == y) with
  | [r] => Except.ok r
  | _ => Except.error "squeeze().at: selection is not a single row"

/-- Lines 155-156: copy every scenario-definition column of the case's row
into the settings (`case_id` and `year` are columns too). -/
def overlayRow (bag : Bag) (cats : List String) (r : ScenRow) : Bag :=
  let bag1 := setKey bag "case_id" (CVal.str r.case_id)
  let bag2 := setKey bag1 "year" (CVal.nat r.year)
  cats.foldl (fun b cat => setKey b cat (CVal.str (cellValue r cat))) bag2

/-- The `assert key not in modified_settings` loop over one patch's keys;
a repeated key is a fatal `AssertionError` (not caught by `except KeyError`). -/
def checkKeys (ks : List String) (modified : List String) (c : String) :
    Except String (List String) :=
  match ks with
  | [] => Except.ok modified
  | k :: rest =>
    if k ∈ modified then
      Except.error ("The settings key " ++ k ++ " is modified twice in case id " ++ c)
    else
      checkKeys rest (modified ++ [k]) c

/-- The patch selected for one category of one case: `none` models every
`KeyError` swallowed by the `try`/`except` (case not present this year,
category without definitions, or variant without a patch). -/
def selectedPatch (mgmtY : List (String × List (String × Bag))) (c : String)
    (p : String × List (String × String)) : Option Bag :=
  match lookupKey c p.2 with
  | none => none
  | some case_value =>
    match lookupKey p.1 mgmtY with
    | none => none
    | some variants => lookupKey case_value variants

/-- One iteration of the category loop: skip silently when no patch is
selected; otherwise assert its keys are fresh and merge it in. -/
def applyCategory (mgmtY : List (String × List (String × Bag))) (c : String)
    (st : Bag × List String) (p : String × List (String × String)) :
    Except String (Bag × List String) :=
  match selectedPatch mgmtY c p with
  | none => Except.ok st
  | some new_parameter =>
    match checkKeys (new_parameter.map Prod.fst) st.2 c with
    | Except.error e => Except.error e
    | Except.ok modified => Except.ok (mergeInto st.1 new_parameter, modified)

/-- `model_planning_period_dict`: year → (first planning year, year), from the
zipped settings lists. -/
def planningDict (settings : BuilderSettings) : List (Nat × (Nat × Nat)) :=
  buildDict ((settings.model_year.zip settings.model_first_planning_year).map
    (fun p => (p.1, (p.2, p.1))))

/-- The pivoted scenario definitions of one year, per category column. -/
def yearPivot (tbl : ScenTable) (y : Nat) : List (String × List (String × String)) :=
  tbl.cats.map (fun cat => (cat, pivotCat (tbl.rows.filter (fun r => r.year == y)) cat))

/-- The body of the case loop: deep-copy the base settings (value copy),
overlay the scenario row, run the category loop, then set
`model_first_planning_year`, `model_year` and `case_name`. -/
def buildCase (settings : BuilderSettings) (nameMap : List (String × String))
    (tbl : ScenTable) (mgmtY : List (String × List (String × Bag)))
    (pivoted : List (String × List (String × String)))
    (y : Nat) (c : String) : Except String Bag :=
  match rowFor tbl c y with
  | Except.error e => Except.error e
  | Except.ok r =>
    match exFoldM (applyCategory mgmtY c) (overlayRow settings.bag tbl.cats r, []) pivoted with
    | Except.error e => Except.error e
    | Except.ok st =>
      match lookupKey y (planningDict settings) with
      | none => Except.error "KeyError: model_planning_period_dict"
      | some yrs =>
        let st1 := setKey st.1 "model_first_planning_year" (CVal.nat yrs.1)
        let st2 := setKey st1 "model_year" (CVal.nat yrs.2)
        match lookupKey c nameMap with
        | none => Except.error "KeyError: case_id_name_map"
        | some nm => Except.ok (setKey st2 "case_name" (CVal.str nm))

/-- `scenario_definitions["year"].unique()` (first-seen order). -/
def uniqueYears (tbl : ScenTable) : List Nat :=
  dedupFirst (tbl.rows.map ScenRow.year)

/-- `scenario_definitions["case_id"].unique()` (first-seen order). -/
def uniqueCases (tbl : ScenTable) : List String :=
  dedupFirst (tbl.rows.map ScenRow.case_id)

/-- One `scenario_settings[year][case_id] = _settings` assignment. -/
def caseEntry (settings : BuilderSettings) (nameMap : List (String × String))
    (tbl : ScenTable) (mgmtY : List (String × List (String × Bag)))
    (pivoted : List (String × List (String × String))) (y : Nat) (c : String) :
    Except String (String × Bag) :=
  match buildCase settings nameMap tbl mgmtY pivoted y c with
  | Except.error e => Except.error e
  | Except.ok bag => Except.ok (c, bag)

/-- The body of the year loop: look up the year's settings management
(an uncaught `KeyError` when absent), pivot the year's rows, and build every
case of `scenario_definitions["case_id"].unique()`. -/
def yearEntry (settings : BuilderSettings) (tbl : ScenTable)
    (nameMap : List (String × String)) (y : Nat) :
    Except String (Nat × List (String × Bag)) :=
  match lookupKey y settings.settings_management with
  | none => Except.error "KeyError: settings_management"
  | some mgmtY =>
    match exMapM (caseEntry settings nameMap tbl mgmtY (yearPivot tbl y) y)
        (uniqueCases tbl) with
    | Except.error e => Except.error e
    | Except.ok cases => Except.ok (y, cases)

/-- `build_scenario_settings(settings, scenario_definitions)`: one resolved
settings dictionary per (year, case id), keyed year → case id.
`build_case_id_name_map` reads the case-id/name CSV; its contents are the
`nameMap` input.  Each dictionary key of the result is assigned exactly once
(the key lists come from `.unique()`), so the nested dicts are represented as
association lists in insertion order. -/
def build_scenario_settings (settings : BuilderSettings) (tbl : ScenTable)
    (nameMap : List (String × String)) :
    Except String (List (Nat × List (String × Bag))) :=
  exMapM (yearEntry settings tbl nameMap) (uniqueYears tbl)

/-- The patches the category loop actually applies for case `c`, in category
order. -/
def appliedPatches (mgmtY : List (String × List (String × Bag)))
    (pivoted : List (String × List (String × String))) (c : String) : List Bag :=
  pivoted.filterMap (selectedPatch mgmtY c)

/-- The concatenated top-level keys of every patch applied for `(y, c)`: the
case's settings construction succeeds exactly when this list has no repeats. -/
def appliedKeysFor (settings : BuilderSettings) (tbl : ScenTable) (y : Nat)
    (c : String) : List String :=
  ((appliedPatches ((lookupKey y settings.settings_management).getD [])
      (yearPivot tbl y) c).map (fun p => p.map Prod.fst)).flatten

/-! ### Behaviour of the category loop -/

theorem checkKeys_ok (c : String) (ks : List String) :
    ∀ modified, ks.Nodup → (∀ k ∈ ks, k ∉ modified) →
      checkKeys ks modified c = Except.ok (modified ++ ks) := by
  induction ks with
  | nil =>
    intro modified _ _
    simp [checkKeys]
  | cons k rest ih =>
    intro modified hnd hdisj
    have hdisj' : ∀ k' ∈ rest, k' ∉ modified ++ [k] := by
      intro k' hk'
      simp only [List.mem_append, List.mem_singleton]
      push_neg
      exact ⟨hdisj k' (List.mem_cons_of_mem _ hk'),
        fun hc => (List.nodup_cons.mp hnd).1 (hc ▸ hk')⟩
    rw [checkKeys, if_neg (hdisj k (List.mem_cons_self _ _)),
      ih (modified ++ [k]) (List.nodup_cons.mp hnd).2 hdisj']
    simp

theorem checkKeys_error (c : String) (ks : List String) :
    ∀ modified, ¬(ks.Nodup ∧ ∀ k ∈ ks, k ∉ modified) →
      ∃ e, checkKeys ks modified c = Except.error e := by
  induction ks with
  | nil =>
    intro modified h
    exact absurd ⟨List.nodup_nil, by simp⟩ h
  | cons k rest ih =>
    intro modified h
    by_cases hk : k ∈ modified
    · exact ⟨"The settings key " ++ k ++ " is modified twice in case id " ++ c,
        by rw [checkKeys, if_pos hk]⟩
    · rw [checkKeys, if_neg hk]
      refine ih (modified ++ [k]) ?_
      rintro ⟨hnd', hdis'⟩
      refine h ⟨List.nodup_cons.mpr ⟨?_, hnd'⟩, ?_⟩
      · intro hkr
        exact hdis' k hkr (by simp)
      · intro k' hk'
        rcases List.mem_cons.mp hk' with rfl | hk''
        · exact hk
        · intro hc
          exact hdis' k' hk'' (by simp [hc])

theorem applyCats_ok (mgmtY : List (String × List (String × Bag))) (c : String)
    (pivoted : List (String × List (String × String))) :
    ∀ (bag : Bag) (modified : List String),
      (modified ++
        ((appliedPatches mgmtY pivoted c).map (fun p => p.map Prod.fst)).flatten).Nodup →
      ∃ bag', exFoldM (applyCategory mgmtY c) (bag, modified) pivoted =
        Except.ok (bag', modified ++
          ((appliedPatches mgmtY pivoted c).map (fun p => p.map Prod.fst)).flatten) := by
  induction pivoted with
  | nil =>
    intro bag modified _
    exact ⟨bag, by simp [exFoldM, appliedPatches]⟩
  | cons p rest ih =>
    intro bag modified h
    cases hsel : selectedPatch mgmtY c p with
    | none =>
      have happ : appliedPatches mgmtY (p :: rest) c = appliedPatches mgmtY rest c := by
        simp [appliedPatches, List.filterMap_cons, hsel]
      rw [happ] at h ⊢
      obtain ⟨bag', hb⟩ := ih bag modified h
      refine ⟨bag', ?_⟩
      simp only [exFoldM, applyCategory, hsel]
      exact hb
    | some P =>
      have happ : appliedPatches mgmtY (p :: rest) c = P :: appliedPatches mgmtY rest c := by
        simp [appliedPatches, List.filterMap_cons, hsel]
      rw [happ] at h ⊢
      simp only [List.map_cons, List.flatten_cons] at h ⊢
      rw [← List.append_assoc] at h
      have hnd1 : (modified ++ P.map Prod.fst).Nodup :=
        (List.sublist_append_left _ _).nodup h
      rw [List.nodup_append] at hnd1
      have hck := checkKeys_ok c (P.map Prod.fst) modified hnd1.2.1
        (fun k hk hkm => hnd1.2.2 hkm hk)
      obtain ⟨bag', hb⟩ := ih (mergeInto bag P) (modified ++ P.map Prod.fst) h
      refine ⟨bag', ?_⟩
      simp only [exFoldM, applyCategory, hsel, hck]
      rw [hb]
      simp [List.append_assoc]

theorem applyCats_error (mgmtY : List (String × List (String × Bag))) (c : String)
    (pivoted : List (String × List (String × String))) :
    ∀ (bag : Bag) (modified : List String), modified.Nodup →
      ¬(modified ++
        ((appliedPatches mgmtY pivoted c).map (fun p => p.map Prod.fst)).flatten).Nodup →
      ∃ e, exFoldM (applyCategory mgmtY c) (bag, modified) pivoted = Except.error e := by
  induction pivoted with
  | nil =>
    intro bag modified hnd h
    exact absurd (by simpa [appliedPatches] using hnd) h
  | cons p rest ih =>
    intro bag modified hnd h
    cases hsel : selectedPatch mgmtY c p with
    | none =>
      have happ : appliedPatches mgmtY (p :: rest) c = appliedPatches mgmtY rest c := by
        simp [appliedPatches, List.filterMap_cons, hsel]
      rw [happ] at h
      obtain ⟨e, he⟩ := ih bag modified hnd h
      refine ⟨e, ?_⟩
      simp only [exFoldM, applyCategory, hsel]
      exact he
    | some P =>
      have happ : appliedPatches mgmtY (p :: rest) c = P :: appliedPatches mgmtY rest c := by
        simp [appliedPatches, List.filterMap_cons, hsel]
      rw [happ] at h
      simp only [List.map_cons, List.flatten_cons] at h
      by_cases hok : (P.map Prod.fst).Nodup ∧ ∀ k ∈ P.map Prod.fst, k ∉ modified
      · have hck := checkKeys_ok c (P.map Prod.fst) modified hok.1 hok.2
        have hnd' : (modified ++ P.map Prod.fst).Nodup :=
          List.Nodup.append hnd hok.1 (fun a ha hb => hok.2 a hb ha)
        obtain ⟨e, he⟩ := ih (mergeInto bag P) (modified ++ P.map Prod.fst) hnd'
          (by rw [List.append_assoc]; exact h)
        refine ⟨e, ?_⟩
        simp only [exFoldM, applyCategory, hsel, hck]
        exact he
      · obtain ⟨e, he⟩ := checkKeys_error c (P.map Prod.fst) modified hok
        exact ⟨e, by simp only [exFoldM, applyCategory, hsel, he]⟩

theorem buildCase_ok (settings : BuilderSettings) (nameMap : List (String × String))
    (tbl : ScenTable) (mgmtY : List (String × List (String × Bag)))
    (pivoted : List (String × List (String × String))) (y : Nat) (c : String)
    (hrow : (tbl.rows.filter (fun r => r.case_id == c && r.year == y)).length = 1)
    (hover : (((appliedPatches mgmtY pivoted c).map (fun p => p.map Prod.fst)).flatten).Nodup)
    (hplan : (lookupKey y (planningDict settings)).isSome = true)
    (hname : (lookupKey c nameMap).isSome = true) :
    ∃ bag, buildCase settings nameMap tbl mgmtY pivoted y c = Except.ok bag ∧
      lookupKey "case_name" bag = (lookupKey c nameMap).map CVal.str := by
  cases hflt : tbl.rows.filter (fun r => r.case_id == c && r.year == y) with
  | nil =>
    rw [hflt] at hrow
    simp at hrow
  | cons r rest =>
    cases rest with
    | cons r2 rest2 =>
      rw [hflt] at hrow
      simp at hrow
    | nil =>
      obtain ⟨bag', hfold⟩ := applyCats_ok mgmtY c pivoted
        (overlayRow settings.bag tbl.cats r) [] (by simpa using hover)
      obtain ⟨yrs, hyrs⟩ := Option.isSome_iff_exists.mp hplan
      obtain ⟨nm, hnm⟩ := Option.isSome_iff_exists.mp hname
      refine ⟨setKey (setKey (setKey bag' "model_first_planning_year" (CVal.nat yrs.1))
        "model_year" (CVal.nat yrs.2)) "case_name" (CVal.str nm), ?_, ?_⟩
      · rw [buildCase, rowFor, hflt]
        simp only [hfold, hyrs, hnm]
      · rw [lookupKey_setKey_self, hnm]
        rfl

theorem buildCase_error (settings : BuilderSettings) (nameMap : List (String × String))
    (tbl : ScenTable) (mgmtY : List (String × List (String × Bag)))
    (pivoted : List (String × List (String × String))) (y : Nat) (c : String)
    (hover : ¬(((appliedPatches mgmtY pivoted c).map
      (fun p => p.map Prod.fst)).flatten).Nodup) :
    ∃ e, buildCase settings nameMap tbl mgmtY pivoted y c = Except.error e := by
  cases hrf : rowFor tbl c y with
  | error e =>
    exact ⟨e, by rw [buildCase, hrf]⟩
  | ok r =>
    obtain ⟨e, he⟩ := applyCats_error mgmtY c pivoted (overlayRow settings.bag tbl.cats r)
      [] List.nodup_nil (by simpa using hover)
    refine ⟨e, ?_⟩
    rw [buildCase, hrf]
    simp only [he]

/-! ### Small `Forall₂` helpers -/

theorem forall₂_map_fst {α : Type u} {β : Type v} {R : α → β → Prop} {f : β → α}
    {l : List α} {ys : List β} (h : List.Forall₂ R l ys)
    (hR : ∀ a b, R a b → f b = a) : ys.map f = l := by
  induction h with
  | nil => rfl
  | cons hr _ ih => simp [List.map_cons, ih, hR _ _ hr]

theorem forall₂_mem_right {α : Type u} {β : Type v} {R : α → β → Prop} :
    ∀ {l : List α} {ys : List β}, List.Forall₂ R l ys → ∀ b ∈ ys, ∃ a ∈ l, R a b := by
  intro l ys h
  induction h with
  | nil =>
    intro b hb
    simp at hb
  | cons hr _ ih =>
    intro b hb
    rcases List.mem_cons.mp hb with rfl | hb'
    · exact ⟨_, List.mem_cons_self _ _, hr⟩
    · obtain ⟨a, ha, hRa⟩ := ih b hb'
      exact ⟨a, List.mem_cons_of_mem _ ha, hRa⟩

/-! ### Two categories patching the same key make the applied keys repeat -/

theorem mem_flatten_keys {α : Type u} (F : α → Option Bag) (l : List α) (x : α)
    (Px : Bag) (k : String) (hx : x ∈ l) (hFx : F x = some Px)
    (hk : k ∈ Px.map Prod.fst) :
    k ∈ ((l.filterMap F).map (fun p => p.map Prod.fst)).flatten :=
  List.mem_flatten.mpr ⟨Px.map Prod.fst,
    List.mem_map_of_mem _ (List.mem_filterMap.mpr ⟨x, hx, hFx⟩), hk⟩

theorem flatten_keys_not_nodup {α : Type u} (F : α → Option Bag) (l : List α)
    (a b : α) (hne : a ≠ b) (ha : a ∈ l) (hb : b ∈ l) (Pa Pb : Bag)
    (hFa : F a = some Pa) (hFb : F b = some Pb) (k : String)
    (hka : k ∈ Pa.map Prod.fst) (hkb : k ∈ Pb.map Prod.fst) :
    ¬ ((l.filterMap F).map (fun p => p.map Prod.fst)).flatten.Nodup := by
  intro hnodup
  obtain ⟨s, t, rfl⟩ := List.append_of_mem ha
  rw [List.filterMap_append, List.filterMap_cons, hFa, List.map_append, List.map_cons,
    List.flatten_append, List.flatten_cons, List.nodup_append] at hnodup
  rcases List.mem_append.mp hb with hbs | hbt
  · have hks := mem_flatten_keys F s b Pb k hbs hFb hkb
    exact hnodup.2.2 hks (List.mem_append_left _ hka)
  · have hbt' : b ∈ t := by
      rcases List.mem_cons.mp hbt with rfl | hbt'
      · exact absurd rfl hne.symm
      · exact hbt'
    have hkt := mem_flatten_keys F t b Pb k hbt' hFb hkb
    have hnd2 := hnodup.2.1
    rw [List.nodup_append] at hnd2
    exact hnd2.2.2 hka hkt

/-- **C2**: when two different categories' selected patches for the same
(case id, year) introduce an overlapping settings key, `build_scenario_settings`
raises a fatal error: the assertion is not swallowed by the skip-on-absence
`except KeyError` and the conflict is not resolved last-write-wins — the build
aborts with an error before any resolved settings mapping is returned. -/
theorem build_scenario_settings_double_override
    (settings : BuilderSettings) (tbl : ScenTable) (nameMap : List (String × String))
    (y : Nat) (c : String) (cat1 cat2 : String) (P1 P2 : Bag) (k : String)
    (hy : y ∈ tbl.rows.map ScenRow.year)
    (hc : c ∈ tbl.rows.map ScenRow.case_id)
    (hcat1 : cat1 ∈ tbl.cats) (hcat2 : cat2 ∈ tbl.cats) (hne : cat1 ≠ cat2)
    (hP1 : selectedPatch ((lookupKey y settings.settings_management).getD []) c
      (cat1, pivotCat (tbl.rows.filter (fun r => r.year == y)) cat1) = some P1)
    (hP2 : selectedPatch ((lookupKey y settings.settings_management).getD []) c
      (cat2, pivotCat (tbl.rows.filter (fun r => r.year == y)) cat2) = some P2)
    (hk1 : k ∈ P1.map Prod.fst) (hk2 : k ∈ P2.map Prod.fst) :
    ∃ e, build_scenario_settings settings tbl nameMap = Except.error e := by
  refine exMapM_error_of_mem (yearEntry settings tbl nameMap) _
    ⟨y, (mem_dedupFirst _ y).mpr hy, ?_⟩
  cases hlm : lookupKey y settings.settings_management with
  | none =>
    exact ⟨"KeyError: settings_management", by rw [yearEntry, hlm]⟩
  | some mgmtY =>
    rw [hlm, Option.getD_some] at hP1 hP2
    have hnot : ¬(((appliedPatches mgmtY (yearPivot tbl y) c).map
        (fun p => p.map Prod.fst)).flatten).Nodup := by
      have hmap : appliedPatches mgmtY (yearPivot tbl y) c =
          tbl.cats.filterMap (fun cat => selectedPatch mgmtY c
            (cat, pivotCat (tbl.rows.filter (fun r => r.year == y)) cat)) := by
        rw [appliedPatches, yearPivot, List.filterMap_map]
        rfl
      rw [hmap]
      exact flatten_keys_not_nodup _ tbl.cats cat1 cat2 hne hcat1 hcat2
        P1 P2 hP1 hP2 k hk1 hk2
    obtain ⟨e, he⟩ := buildCase_error settings nameMap tbl mgmtY (yearPivot tbl y) y c hnot
    obtain ⟨e', he'⟩ := exMapM_error_of_mem
      (caseEntry settings nameMap tbl mgmtY (yearPivot tbl y) y) (uniqueCases tbl)
      ⟨c, (mem_dedupFirst _ c).mpr hc, e, by rw [caseEntry, he]⟩
    exact ⟨e', by simp only [yearEntry, hlm, he']⟩

/-- Scenario table for the C2 witness: two categories whose selected patches
both set the key `"k"`. -/
def w2Tbl : ScenTable :=
  ⟨["ng_price", "ccs_capex"],
   [⟨"p1", 2030, [("ng_price", "low"), ("ccs_capex", "mid")]⟩]⟩

/-- Base settings for the C2 witness. -/
def w2Settings : BuilderSettings :=
  ⟨[2030], [2028],
   [(2030, [("ng_price", [("low", [("k", CVal.nat 1)])]),
            ("ccs_capex", [("mid", [("k", CVal.nat 2)])])])],
   []⟩

/-- Case-name map for the C2 witness. -/
def w2NameMap : List (String × String) := [("p1", "one")]

theorem build_scenario_settings_double_override_witness :
    ∃ e, build_scenario_settings w2Settings w2Tbl w2NameMap = Except.error e :=
  build_scenario_settings_double_override w2Settings w2Tbl w2NameMap 2030 "p1"
    "ng_price" "ccs_capex" [("k", CVal.nat 1)] [("k", CVal.nat 2)] "k"
    (by decide) (by decide) (by decide) (by decide) (by decide)
    rfl rfl (by decide) (by decide)

/-- **C1** (amended): for a scenario-definition table forming a complete
case×year grid — every unique case id paired with every unique year in exactly
one row — with settings management, planning-year lists and case-name map
covering the table's years and case ids, and no (case id, year) whose applied
patches repeat a settings key, `build_scenario_settings` succeeds and returns
a mapping keyed year → case id containing exactly one settings dictionary per
(case id, year) pair present in the table, each with `case_name` equal to the
name map's entry for its case id.  (As stated the claim is `corrected`: the
code iterates the full cross product of unique case ids and years, so a table
with a missing (case id, year) combination makes `squeeze().at` fail instead
of being skipped — see the counterexample.) -/
theorem build_scenario_settings_ok
    (settings : BuilderSettings) (tbl : ScenTable) (nameMap : List (String × String))
    (hgrid : ∀ c ∈ uniqueCases tbl, ∀ y ∈ uniqueYears tbl,
      (tbl.rows.filter (fun r => r.case_id == c && r.year == y)).length = 1)
    (hmgmt : ∀ y ∈ uniqueYears tbl,
      (lookupKey y settings.settings_management).isSome = true)
    (hplan : ∀ y ∈ uniqueYears tbl,
      (lookupKey y (planningDict settings)).isSome = true)
    (hname : ∀ c ∈ uniqueCases tbl, (lookupKey c nameMap).isSome = true)
    (hover : ∀ y ∈ uniqueYears tbl, ∀ c ∈ uniqueCases tbl,
      (appliedKeysFor settings tbl y c).Nodup) :
    ∃ m, build_scenario_settings settings tbl nameMap = Except.ok m ∧
      m.map Prod.fst = uniqueYears tbl ∧
      (∀ e ∈ m, e.2.map Prod.fst = uniqueCases tbl) ∧
      (∀ e ∈ m, ∀ q ∈ e.2,
        lookupKey "case_name" q.2 = (lookupKey q.1 nameMap).map CVal.str) ∧
      (∀ y c, (∃ r ∈ tbl.rows, r.case_id = c ∧ r.year = y) ↔
        (∃ e ∈ m, e.1 = y ∧ ∃ q ∈ e.2, q.1 = c)) := by
  have hyears : ∀ y ∈ uniqueYears tbl, ∃ e,
      yearEntry settings tbl nameMap y = Except.ok e ∧
      (e.1 = y ∧ e.2.map Prod.fst = uniqueCases tbl ∧
        ∀ q ∈ e.2, lookupKey "case_name" q.2 = (lookupKey q.1 nameMap).map CVal.str) := by
    intro y hymem
    obtain ⟨mgmtY, hlm⟩ := Option.isSome_iff_exists.mp (hmgmt y hymem)
    have hcases : ∀ c ∈ uniqueCases tbl, ∃ q,
        caseEntry settings nameMap tbl mgmtY (yearPivot tbl y) y c = Except.ok q ∧
        (q.1 = c ∧ lookupKey "case_name" q.2 = (lookupKey c nameMap).map CVal.str) := by
      intro c hcmem
      have hov := hover y hymem c hcmem
      simp only [appliedKeysFor, hlm, Option.getD_some] at hov
      obtain ⟨bag, hbc, hcn⟩ := buildCase_ok settings nameMap tbl mgmtY (yearPivot tbl y) y c
        (hgrid c hcmem y hymem) hov (hplan y hymem) (hname c hcmem)
      refine ⟨(c, bag), ?_, rfl, hcn⟩
      rw [caseEntry, hbc]
    obtain ⟨cases, hcs, hcfa⟩ := exMapM_ok_forall₂
      (caseEntry settings nameMap tbl mgmtY (yearPivot tbl y) y)
      (fun c q => q.1 = c ∧
        lookupKey "case_name" q.2 = (lookupKey c nameMap).map CVal.str)
      (uniqueCases tbl) hcases
    refine ⟨(y, cases), ?_, rfl, ?_, ?_⟩
    · simp only [yearEntry, hlm, hcs]
    · exact forall₂_map_fst hcfa (fun a b h => h.1)
    · intro q hq
      obtain ⟨c, _, hq1, hqn⟩ := forall₂_mem_right hcfa q hq
      rw [hq1]
      exact hqn
  obtain ⟨m, hm, hfa⟩ := exMapM_ok_forall₂ (yearEntry settings tbl nameMap)
    (fun y e => e.1 = y ∧ e.2.map Prod.fst = uniqueCases tbl ∧
      ∀ q ∈ e.2, lookupKey "case_name" q.2 = (lookupKey q.1 nameMap).map CVal.str)
    (uniqueYears tbl) hyears
  have hfst : m.map Prod.fst = uniqueYears tbl := forall₂_map_fst hfa (fun a b h => h.1)
  refine ⟨m, hm, hfst, ?_, ?_, ?_⟩
  · intro e he
    obtain ⟨a, _, hP⟩ := forall₂_mem_right hfa e he
    exact hP.2.1
  · intro e he q hq
    obtain ⟨a, _, hP⟩ := forall₂_mem_right hfa e he
    exact hP.2.2 q hq
  · intro y c
    constructor
    · rintro ⟨r, hr, rfl, rfl⟩
      have hyu : r.year ∈ uniqueYears tbl :=
        (mem_dedupFirst _ _).mpr (List.mem_map_of_mem _ hr)
      have hcu : r.case_id ∈ uniqueCases tbl :=
        (mem_dedupFirst _ _).mpr (List.mem_map_of_mem _ hr)
      have hmfst : r.year ∈ m.map Prod.fst := by
        rw [hfst]
        exact hyu
      obtain ⟨e, hem, hefst⟩ := List.mem_map.mp hmfst
      refine ⟨e, hem, hefst, ?_⟩
      obtain ⟨a, _, hP⟩ := forall₂_mem_right hfa e hem
      have hcin : r.case_id ∈ e.2.map Prod.fst := by
        rw [hP.2.1]
        exact hcu
      obtain ⟨q, hqm, hqf⟩ := List.mem_map.mp hcin
      exact ⟨q, hqm, hqf⟩
    · rintro ⟨e, hem, rfl, q, hqm, rfl⟩
      have hyy : e.1 ∈ uniqueYears tbl := by
        rw [← hfst]
        exact List.mem_map_of_mem _ hem
      have hcc : q.1 ∈ uniqueCases tbl := by
        obtain ⟨a, _, hP⟩ := forall₂_mem_right hfa e hem
        rw [← hP.2.1]
        exact List.mem_map_of_mem _ hqm
      have hflt := hgrid q.1 hcc e.1 hyy
      cases hfl : tbl.rows.filter (fun r => r.case_id == q.1 && r.year == e.1) with
      | nil =>
        rw [hfl] at hflt
        simp at hflt
      | cons r rest =>
        have hrfil : r ∈ tbl.rows.filter (fun r => r.case_id == q.1 && r.year == e.1) := by
          rw [hfl]
          exact List.mem_cons_self r rest
        have hrmem : r ∈ tbl.rows := List.mem_of_mem_filter hrfil
        have hprop := List.of_mem_filter hrfil
        simp only [Bool.and_eq_true, beq_iff_eq] at hprop
        exact ⟨r, hrmem, hprop.1, hprop.2⟩

/-- Scenario table for the C1 counterexample: two case ids, two years, but
only two of the four (case id, year) combinations present. -/
def cexTbl : ScenTable :=
  ⟨["ng_price"],
   [⟨"p1", 2030, [("ng_price", "low")]⟩, ⟨"p2", 2040, [("ng_price", "high")]⟩]⟩

/-- Base settings for the C1 counterexample (no patches at all, so no
case/year has two categories patching the same key). -/
def cexSettings : BuilderSettings :=
  ⟨[2030, 2040], [2028, 2038], [(2030, []), (2040, [])], []⟩

/-- Case-name map for the C1 counterexample. -/
def cexNameMap : List (String × String) := [("p1", "case_one"), ("p2", "case_two")]

/-- The claim as stated is false: this input satisfies the claim's hypothesis
(no case/year has two categories patching the same key — indeed no patch is
ever selected), every category/variant lookup that fails would be silently
skipped, and yet `build_scenario_settings` raises instead of returning one
Settings object per (case id, year) pair present in the table: the case loop
iterates all unique case ids for every year, and the absent pair (p1, 2040)
(equally (p2, 2030)) makes `.squeeze().at[col]` fail on an empty selection. -/
theorem build_scenario_settings_cross_product_counterexample :
    (∀ y ∈ uniqueYears cexTbl, ∀ c ∈ uniqueCases cexTbl,
      (appliedKeysFor cexSettings cexTbl y c).Nodup) ∧
    build_scenario_settings cexSettings cexTbl cexNameMap =
      Except.error "squeeze().at: selection is not a single row" :=
  ⟨by decide, rfl⟩

/-- Scenario table for the C1 witness: a complete 2×2 grid. -/
def w1Tbl : ScenTable :=
  ⟨["ng_price"],
   [⟨"p1", 2030, [("ng_price", "low")]⟩, ⟨"p2", 2030, [("ng_price", "high")]⟩,
    ⟨"p1", 2040, [("ng_price", "low")]⟩, ⟨"p2", 2040, [("ng_price", "high")]⟩]⟩

/-- Base settings for the C1 witness: one real patch for (`ng_price`, `low`)
in 2030. -/
def w1Settings : BuilderSettings :=
  ⟨[2030, 2040], [2028, 2038],
   [(2030, [("ng_price", [("low", [("ng_capex", CVal.nat 1)])])]), (2040, [])],
   [("foo", CVal.str "bar")]⟩

/-- Case-name map for the C1 witness. -/
def w1NameMap : List (String × String) := [("p1", "case_one"), ("p2", "case_two")]

theorem build_scenario_settings_ok_witness :
    ∃ m, build_scenario_settings w1Settings w1Tbl w1NameMap = Except.ok m ∧
      m.map Prod.fst = uniqueYears w1Tbl ∧
      (∀ e ∈ m, e.2.map Prod.fst = uniqueCases w1Tbl) ∧
      (∀ e ∈ m, ∀ q ∈ e.2,
        lookupKey "case_name" q.2 = (lookupKey q.1 w1NameMap).map CVal.str) ∧
      (∀ y c, (∃ r ∈ w1Tbl.rows, r.case_id = c ∧ r.year = y) ↔
        (∃ e ∈ m, e.1 = y ∧ ∃ q ∈ e.2, q.1 = c)) :=
  build_scenario_settings_ok w1Settings w1Tbl w1NameMap
    (by decide) (by decide) (by decide) (by decide) (by decide)

end PG
